import Mathlib

/-!
# PID file handling of `internal/pidfile/pidfile.go`

A shallow embedding of the four operations of the package (`checkPIDFileAlreadyExists`,
`New`, `PIDFile.Remove`, `PIDFile.Write`) over an explicit model of what they call:
the Go library routines `os.ReadFile`, `os.WriteFile`, `os.Remove`, `filepath.Dir`,
`strings.TrimSpace`, `strconv.Atoi` and the `%d` verb of `fmt`, plus the two helpers of the
package that live in other files (`MkdirAll`, `processExists`).

Conventions.
* A Go `string` or `[]byte` holding file content is a `List Nat` of byte values.
* Paths and error messages are `String`.
* The filesystem is a tree of directories and regular files without links. Every node has
  permission bits, an owner and a group, and every call is made under the identity of the
  calling process: read, write and search permission are checked as POSIX does, user 0
  passes every check, and a sticky directory restricts removal. No other process touches
  the tree between two calls.
-/

namespace pidfile

/-! ## Text primitives of the Go library -/

/-- UTF-8 encodings of the runes for which Go's `unicode.IsSpace` holds: the six ASCII ones,
U+0085, U+00A0, U+1680, U+2000 to U+200A, U+2028, U+2029, U+202F, U+205F and U+3000. -/
def spaceEncodings : List (List Nat) :=
  [[9], [10], [11], [12], [13], [32],
   [194, 133], [194, 160],
   [225, 154, 128],
   [226, 128, 128], [226, 128, 129], [226, 128, 130], [226, 128, 131], [226, 128, 132],
   [226, 128, 133], [226, 128, 134], [226, 128, 135], [226, 128, 136], [226, 128, 137],
   [226, 128, 138],
   [226, 128, 168], [226, 128, 169], [226, 128, 175],
   [226, 129, 159],
   [227, 128, 128]]

/-- Remove one element of `table` from the front of `s`, if one is there. -/
def stripFront (table : List (List Nat)) (s : List Nat) : Option (List Nat) :=
  match table with
  | [] => none
  | e :: rest => if e.isPrefixOf s then some (s.drop e.length) else stripFront rest s

/-- Remove elements of `table` from the front of `s` for as long as there is one
(at most `fuel` times; `s.length` is always enough). -/
def trimFront (table : List (List Nat)) : Nat → List Nat → List Nat
  | 0, s => s
  | fuel + 1, s =>
    match stripFront table s with
    | none => s
    | some t => trimFront table fuel t

/-- Go `strings.TrimLeftFunc(s, unicode.IsSpace)` on the bytes of `s`. A byte sequence that is
not the encoding of a white-space rune (invalid UTF-8 included, which decodes to U+FFFD)
stops the trimming. -/
def trimLeftSpace (s : List Nat) : List Nat :=
  trimFront spaceEncodings s.length s

/-- Go `strings.TrimRightFunc(s, unicode.IsSpace)`: the same from the end, which is trimming
the reversed encodings from the front of the reversed string. -/
def trimRightSpace (s : List Nat) : List Nat :=
  (trimFront (spaceEncodings.map List.reverse) s.length s.reverse).reverse

/-- Go `strings.TrimSpace`: `s` without leading and trailing white space, as defined by
Unicode. -/
def strings.TrimSpace (s : List Nat) : List Nat :=
  trimRightSpace (trimLeftSpace s)

/-- Value of a run of ASCII decimal digits read left to right onto `acc`;
`none` when a byte is not a digit. -/
def parseDigits : List Nat → Nat → Option Nat
  | [], acc => some acc
  | b :: s, acc => if 48 ≤ b ∧ b ≤ 57 then parseDigits s (acc * 10 + (b - 48)) else none

/-- Go `strconv.Atoi` for an `int` of `intSize` bits: an optional sign, then one or more
decimal digits and nothing else, the value within the range of `int`. The result is `none`
where Go returns a non-nil error (syntax or range); the callers here never look at which. -/
def strconv.Atoi (intSize : Nat) (s : List Nat) : Option Int :=
  let neg := s.head? = some 45
  let digits := if s.head? = some 45 ∨ s.head? = some 43 then s.tail else s
  if digits = [] then none
  else
    match parseDigits digits 0 with
    | none => none
    | some n =>
      if neg then (if n ≤ 2 ^ (intSize - 1) then some (-(n : Int)) else none)
      else (if n < 2 ^ (intSize - 1) then some (n : Int) else none)

/-- ASCII decimal digits of `n`, most significant first, put in front of `acc`
(`fuel` bounds the number of digits produced; `n + 1` is always enough). -/
def decimalDigits : Nat → Nat → List Nat → List Nat
  | 0, _, acc => acc
  | fuel + 1, n, acc =>
    if n < 10 then (48 + n) :: acc
    else decimalDigits fuel (n / 10) ((48 + n % 10) :: acc)

/-- The text the `%d` verb of Go's `fmt` produces for an integer: a minus sign for a negative
value, then the decimal digits without leading zeros. -/
def fmt.formatDecimal (v : Int) : List Nat :=
  if v < 0 then 45 :: decimalDigits (v.natAbs + 1) v.natAbs []
  else decimalDigits (v.toNat + 1) v.toNat []


/-- A byte of a decimal numeral: the minus sign or a digit. -/
def numeralByte (b : Nat) : Prop := b = 45 ∨ (48 ≤ b ∧ b ≤ 57)

/-- The values a Go `int` of `intSize` bits can hold. -/
def inIntRange (intSize : Nat) (v : Int) : Prop :=
  -((2 ^ (intSize - 1) : Nat) : Int) ≤ v ∧ v < ((2 ^ (intSize - 1) : Nat) : Int)

instance (intSize : Nat) (v : Int) : Decidable (inIntRange intSize v) := by
  unfold inIntRange; infer_instance

/-! ## Errors -/

/-- The `syscall.Errno` values the modelled filesystem reports. -/
inductive Errno where
  | ENOENT
  | ENOTDIR
  | EISDIR
  | ENOTEMPTY
  | EBUSY
  | EACCES
  | EPERM
  deriving DecidableEq, Repr

/-- Go's text for an `Errno`. -/
def Errno.Error : Errno → String
  | .ENOENT => "no such file or directory"
  | .ENOTDIR => "not a directory"
  | .EISDIR => "is a directory"
  | .ENOTEMPTY => "directory not empty"
  | .EBUSY => "device or resource busy"
  | .EACCES => "permission denied"
  | .EPERM => "operation not permitted"

/-- The Go `error` values that occur: the result of `fmt.Errorf` without a wrapped error,
and `*fs.PathError`, which the `os` routines return. -/
inductive GoError where
  | errorString (msg : String)
  | pathError (op : String) (path : String) (err : Errno)
  deriving DecidableEq, Repr

/-- The `Error()` method: the message of an error. For a `PathError` Go returns
`e.Op + " " + e.Path + ": " + e.Err.Error()`. -/
def GoError.Error : GoError → String
  | .errorString msg => msg
  | .pathError op path err => op ++ " " ++ path ++ ": " ++ err.Error

/-! ## The filesystem -/

/-- The identity a process acts under: its user, its group and its further groups. -/
structure Cred where
  uid : Nat
  gid : Nat
  groups : List Nat
  deriving DecidableEq, Repr

/-- The superuser. -/
def Cred.root : Cred :=
  { uid := 0, gid := 0, groups := [] }

/-- What the filesystem keeps about a node besides its content: the permission bits (the
nine `rwx` bits and the sticky bit 01000), the owner and the group. -/
structure Stat where
  mode : Nat
  uid : Nat
  gid : Nat
  deriving DecidableEq, Repr

/-- The three kinds of access the permission bits govern; `search` is the execute bit of a
directory. -/
inductive Access where
  | read
  | write
  | search
  deriving DecidableEq, Repr

/-- The bit of an access kind within one class of three bits. -/
def Access.bit : Access → Nat
  | .read => 4
  | .write => 2
  | .search => 1

/-- The POSIX permission check: user 0 passes; otherwise the bits of the owner class decide
for the owner, those of the group class for a member of the group of the node, and those of
the class of all others for everybody else. -/
def permits (cred : Cred) (st : Stat) (a : Access) : Bool :=
  if cred.uid = 0 then true
  else if cred.uid = st.uid then decide (st.mode &&& (a.bit * 64) ≠ 0)
  else if st.gid = cred.gid ∨ st.gid ∈ cred.groups then decide (st.mode &&& (a.bit * 8) ≠ 0)
  else decide (st.mode &&& a.bit ≠ 0)

/-- What a name in the tree denotes: a regular file with its bytes, or a directory. -/
inductive Node where
  | file (data : List Nat) (st : Stat)
  | dir (st : Stat)
  deriving DecidableEq, Repr

/-- The permission bits, owner and group of a node. -/
def Node.stat : Node → Stat
  | .file _ st => st
  | .dir st => st

/-- Place of a node in the tree: the names on the way down from the root. -/
abbrev Loc := List String

/-- The tree, as a table from places to nodes (the root is always a directory, owned by
user 0 with mode 0755, and has no entry), and the working directory of the process. -/
structure FS where
  nodes : List (Loc × Node)
  cwd : Loc
  deriving DecidableEq, Repr

/-- First entry of the table for `k`. -/
def lookupNode : List (Loc × Node) → Loc → Option Node
  | [], _ => none
  | (k', n) :: rest, k => if k' = k then some n else lookupNode rest k

/-- The node at a place. -/
def FS.node (fs : FS) (k : Loc) : Option Node :=
  if k = [] then some (.dir { mode := 0o755, uid := 0, gid := 0 }) else lookupNode fs.nodes k

/-- The table without the entries for `k`. -/
def dropNode : List (Loc × Node) → Loc → List (Loc × Node)
  | [], _ => []
  | (k', n) :: rest, k => if k' = k then dropNode rest k else (k', n) :: dropNode rest k

/-- Bind place `k` to node `n`, replacing what was there. -/
def FS.put (fs : FS) (k : Loc) (n : Node) : FS :=
  { fs with nodes := (k, n) :: dropNode fs.nodes k }

/-- Drop the entry of place `k`. -/
def FS.del (fs : FS) (k : Loc) : FS :=
  { fs with nodes := dropNode fs.nodes k }

/-- Whether some entry of the table lies directly inside directory `k`. -/
def FS.hasChild (fs : FS) (k : Loc) : Bool :=
  fs.nodes.any (fun e => decide (e.1 ≠ [] ∧ e.1.dropLast = k))

/-- Cut a path at every separator. -/
def splitSlash : List Char → List (List Char)
  | [] => [[]]
  | c :: cs =>
    if c = '/' then [] :: splitSlash cs
    else
      match splitSlash cs with
      | [] => [[c]]
      | h :: t => (c :: h) :: t

/-- The elements of a path as name resolution sees them: empty elements (repeated
separators) are skipped, and a trailing separator asks for a directory, like a final `.`. -/
def components (path : String) : List String :=
  let names := ((splitSlash path.data).filter (fun e => decide (e ≠ []))).map String.mk
  if path.data.getLast? = some '/' ∧ names ≠ [] then names ++ ["."] else names

/-- Where resolution of a path starts: the root for a rooted path, else the working
directory. -/
def startLoc (fs : FS) (path : String) : Loc :=
  if path.data.head? = some '/' then [] else fs.cwd

/-- One step of resolution from directory `cur`. -/
def stepLoc (cur : Loc) (c : String) : Loc :=
  if c = "." then cur else if c = ".." then cur.dropLast else cur ++ [c]

/-- Resolve the elements `cs` from place `cur` for a process with identity `cred`: an element
is looked up in `cur`, which has to be a directory the process may search. The place reached
by the last element may hold anything or nothing. -/
def walk (cred : Cred) (fs : FS) : Loc → List String → Except Errno Loc
  | cur, [] => .ok cur
  | cur, c :: cs =>
    match fs.node cur with
    | none => .error .ENOENT
    | some (.file _ _) => .error .ENOTDIR
    | some (.dir st) =>
      if permits cred st .search then walk cred fs (stepLoc cur c) cs else .error .EACCES

/-- Resolve a path to a place in the tree. -/
def resolve (cred : Cred) (fs : FS) (path : String) : Except Errno Loc :=
  if path.data = [] then .error .ENOENT
  else walk cred fs (startLoc fs path) (components path)

/-- The regular file a path names, if it names one: its bytes and its permission bits. This
is what is stored, whoever may or may not look at it. -/
def FS.fileAt (fs : FS) (path : String) : Option (List Nat × Nat) :=
  match resolve Cred.root fs path with
  | .error _ => none
  | .ok k =>
    match fs.node k with
    | some (.file data st) => some (data, st.mode)
    | _ => none

/-- Go `os.ReadFile`: the whole content of the named file, for a process allowed to search
the directories on the way and to read the file. -/
def os.ReadFile (cred : Cred) (fs : FS) (name : String) : Except GoError (List Nat) :=
  match resolve cred fs name with
  | .error e => .error (.pathError "open" name e)
  | .ok k =>
    match fs.node k with
    | none => .error (.pathError "open" name .ENOENT)
    | some (.dir st) =>
      if permits cred st .read then .error (.pathError "read" name .EISDIR)
      else .error (.pathError "open" name .EACCES)
    | some (.file data st) =>
      if permits cred st .read then .ok data else .error (.pathError "open" name .EACCES)

/-- Permission bits `perm` with the bits of the process umask cleared. -/
def applyUmask (umask perm : Nat) : Nat :=
  perm - (perm &&& umask)

/-- Go `os.WriteFile`: "writes data to the named file, creating it if necessary. If the file
does not exist, WriteFile creates it with permissions perm (before umask); otherwise WriteFile
truncates it before writing, without changing permissions." Writing to a file that is there
needs write permission on it; a new file needs its directory to be there and writable, and
belongs to the process. -/
def os.WriteFile (cred : Cred) (umask : Nat) (fs : FS) (name : String) (data : List Nat)
    (perm : Nat) : Except GoError FS :=
  match resolve cred fs name with
  | .error e => .error (.pathError "open" name e)
  | .ok k =>
    match fs.node k with
    | some (.dir _) => .error (.pathError "open" name .EISDIR)
    | some (.file _ st) =>
      if permits cred st .write then .ok (fs.put k (.file data st))
      else .error (.pathError "open" name .EACCES)
    | none =>
      match fs.node k.dropLast with
      | some (.dir pst) =>
        if permits cred pst .write then
          .ok (fs.put k
            (.file data { mode := applyUmask umask perm, uid := cred.uid, gid := cred.gid }))
        else .error (.pathError "open" name .EACCES)
      | some (.file _ _) => .error (.pathError "open" name .ENOTDIR)
      | none => .error (.pathError "open" name .ENOENT)

/-- Why the process may not take the entry at place `k` out of its directory, if it may not:
it needs write permission on the directory, and in a sticky directory it has to own the
entry or the directory, or be user 0. -/
def unlinkError (cred : Cred) (fs : FS) (k : Loc) : Option Errno :=
  match fs.node k.dropLast with
  | some (.dir pst) =>
    if permits cred pst .write then
      if pst.mode &&& 0o1000 ≠ 0 ∧ cred.uid ≠ 0 ∧ cred.uid ≠ pst.uid ∧
          (fs.node k).map (fun n => n.stat.uid) ≠ some cred.uid then some .EPERM
      else none
    else some .EACCES
  | some (.file _ _) => some .ENOTDIR
  | none => some .ENOENT

/-- Whether the process may remove the file `path` names from its directory. -/
def FS.mayUnlink (cred : Cred) (fs : FS) (path : String) : Bool :=
  match resolve Cred.root fs path with
  | .error _ => false
  | .ok k => (unlinkError cred fs k).isNone

/-- Go `os.Remove`: "removes the named file or (empty) directory. If there is an error, it
will be of type *PathError." -/
def os.Remove (cred : Cred) (fs : FS) (name : String) : Except GoError FS :=
  match resolve cred fs name with
  | .error e => .error (.pathError "remove" name e)
  | .ok k =>
    match fs.node k with
    | none => .error (.pathError "remove" name .ENOENT)
    | some (.file _ _) =>
      match unlinkError cred fs k with
      | some e => .error (.pathError "remove" name e)
      | none => .ok (fs.del k)
    | some (.dir _) =>
      if k = [] then .error (.pathError "remove" name .EBUSY)
      else
        match unlinkError cred fs k with
        | some e => .error (.pathError "remove" name e)
        | none =>
          if fs.hasChild k then .error (.pathError "remove" name .ENOTEMPTY)
          else .ok (fs.del k)

/-- Go `filepath.Clean` on a slash-separated path: the shortest equivalent path by purely
lexical processing (no empty or `.` elements, no inner `..`, no `..` at the root, `.` for
the empty result). `stack` holds the elements kept so far, last one first. -/
def cleanElements (rooted : Bool) : List (List Char) → List (List Char) → List (List Char)
  | [], stack => stack.reverse
  | e :: es, stack =>
    if e = [] ∨ e = ['.'] then cleanElements rooted es stack
    else if e = ['.', '.'] then
      match stack with
      | top :: below =>
        if top = ['.', '.'] then cleanElements rooted es (e :: stack)
        else cleanElements rooted es below
      | [] => if rooted then cleanElements rooted es [] else cleanElements rooted es [e]
    else cleanElements rooted es (e :: stack)

/-- Go `filepath.Clean`. -/
def filepath.Clean (path : List Char) : List Char :=
  let rooted := decide (path.head? = some '/')
  let body := List.intercalate ['/'] (cleanElements rooted (splitSlash path) [])
  if rooted then '/' :: body else if body = [] then ['.'] else body

/-- Go `filepath.Dir`: "all but the last element of path, typically the path's directory",
that is the path up to and including its last separator, cleaned. -/
def filepath.Dir (path : String) : String :=
  String.mk (filepath.Clean (path.data.reverse.dropWhile (fun c => decide (c ≠ '/'))).reverse)

/-! ## The package -/

/-- Create the elements `cs` below place `cur` one after the other where they are missing:
an element is looked up in `cur`, which has to be a directory the process may search; an
element that is there has to be a directory; a missing one is made, which needs write
permission on `cur`. Directories made before a failure stay. -/
def mkdirWalk (cred : Cred) (umask perm : Nat) : FS → Loc → List String → FS × Option Errno
  | fs, _, [] => (fs, none)
  | fs, cur, c :: cs =>
    match fs.node cur with
    | none => (fs, some .ENOENT)
    | some (.file _ _) => (fs, some .ENOTDIR)
    | some (.dir st) =>
      if permits cred st .search then
        match fs.node (stepLoc cur c) with
        | some (.dir _) => mkdirWalk cred umask perm fs (stepLoc cur c) cs
        | some (.file _ _) => (fs, some .ENOTDIR)
        | none =>
          if permits cred st .write then
            mkdirWalk cred umask perm
              (fs.put (stepLoc cur c)
                (.dir { mode := applyUmask umask perm, uid := cred.uid, gid := cred.gid }))
              (stepLoc cur c) cs
          else (fs, some .EACCES)
      else (fs, some .EACCES)

/-- Modelled from the spec: `MkdirAll`, the directory helper of the package, is in a file of
the repository that is not at hand. By the spec it "ensure[s] the parent directory of
`path` exists, creating all missing intermediate directories" with the permissions it is
given, is "idempotent — succeeding silently if the directory already exists", and fails
"only on genuine permission/path errors" with an `IOError`; the error is the `*PathError`
Go's own `os.MkdirAll` gives, naming the directory asked for. The result is the tree
afterwards and the error, if any. -/
def MkdirAll (cred : Cred) (umask : Nat) (fs : FS) (path : String) (perm : Nat) :
    FS × Option GoError :=
  if path.data = [] then (fs, some (.pathError "mkdir" path .ENOENT))
  else
    match mkdirWalk cred umask perm fs (startLoc fs path) (components path) with
    | (fs1, none) => (fs1, none)
    | (fs1, some e) => (fs1, some (.pathError "mkdir" path e))

/-- PIDFile is a file used to store the process ID of a running process. -/
structure PIDFile where
  path : String
  deriving DecidableEq, Repr

deriving instance DecidableEq for Except

/-- What the process sees of its surroundings: its own identifier (`os.Getpid()`), the width
of `int`, its umask, the identity it runs under, and `processExists`, the liveness primitive
of the package, which lives in a platform file of the repository that is not at hand and
is taken as a parameter. -/
structure Env where
  pid : Int
  processExists : Int → Bool
  intSize : Nat
  umask : Nat
  cred : Cred

/-- The state the operations act on: the filesystem, and the record of the identifiers
`processExists` has been asked about (latest first). -/
structure World where
  fs : FS
  probes : List Int
  deriving DecidableEq, Repr

/-- The error `checkPIDFileAlreadyExists` makes with `fmt.Errorf`. -/
def conflictError (path : String) : GoError :=
  .errorString ("pid file found, ensure webhook is not running or delete " ++ path)

/-- Source `checkPIDFileAlreadyExists`: the error is `none` for Go's `nil`. -/
def checkPIDFileAlreadyExists (env : Env) (w : World) (path : String) :
    Option GoError × World :=
  match os.ReadFile env.cred w.fs path with
  | .ok pidByte =>
    let pidString := strings.TrimSpace pidByte
    match strconv.Atoi env.intSize pidString with
    | some pid =>
      if env.processExists pid then
        (some (conflictError path), { w with probes := pid :: w.probes })
      else (none, { w with probes := pid :: w.probes })
    | none => (none, w)
  | .error _ => (none, w)

/-- Source `New`: creates a PIDfile using the specified path. -/
def New (env : Env) (w : World) (path : String) : Except GoError PIDFile × World :=
  match checkPIDFileAlreadyExists env w path with
  | (some err, w1) => (.error err, w1)
  | (none, w1) =>
    match MkdirAll env.cred env.umask w1.fs (filepath.Dir path) 0o755 with
    | (fs2, some err) => (.error err, { w1 with fs := fs2 })
    | (fs2, none) =>
      match os.WriteFile env.cred env.umask fs2 path (fmt.formatDecimal env.pid) 0o600 with
      | .error err => (.error err, { w1 with fs := fs2 })
      | .ok fs3 => (.ok { path := path }, { w1 with fs := fs3 })

/-- Source `PIDFile.Remove`: removes the PIDFile. The call is made under the identity of the
process, which `env` carries. -/
def PIDFile.Remove (env : Env) (file : PIDFile) (w : World) : Option GoError × World :=
  match os.Remove env.cred w.fs file.path with
  | .error err => (some err, w)
  | .ok fs1 => (none, { w with fs := fs1 })

/-- Source `PIDFile.Write`. -/
def PIDFile.Write (env : Env) (p : PIDFile) (w : World) : Option GoError × World :=
  match os.WriteFile env.cred env.umask w.fs p.path (fmt.formatDecimal env.pid ++ [10])
      0o644 with
  | .error err => (some err, w)
  | .ok fs1 => (none, { w with fs := fs1 })

/-! ### Sample surroundings -/

/-- A 64-bit process 1234 run by user 0 with umask 022 on a machine where only 1 and 99999
are alive. -/
def sampleEnv : Env :=
  { pid := 1234, processExists := fun p => p = 1 || p = 99999, intSize := 64, umask := 0o022,
    cred := Cred.root }

/-- An empty tree with the root as working directory. -/
def emptyWorld : World :=
  { fs := { nodes := [], cwd := [] }, probes := [] }

/-- A tree with directory `/run` and file `/run/app.pid` of the given content and mode, both
owned by user 0. -/
def worldWith (data : List Nat) (mode : Nat) : World :=
  { fs := { nodes := [(["run"], .dir { mode := 0o755, uid := 0, gid := 0 }),
                      (["run", "app.pid"], .file data { mode := mode, uid := 0, gid := 0 })],
            cwd := [] },
    probes := [] }

/-- Another 64-bit process, run by user 0 on a machine where 1234 is alive. -/
def laterEnv : Env :=
  { pid := 4321, processExists := fun p => p = 1234 || p = 4321, intSize := 64, umask := 0o077,
    cred := Cred.root }

/-- A 64-bit process 1234 run by the unprivileged user 1000 (group 1000) with umask 022, on a
machine where only 1 and 99999 are alive. -/
def userEnv : Env :=
  { pid := 1234, processExists := fun p => p = 1 || p = 99999, intSize := 64, umask := 0o022,
    cred := { uid := 1000, gid := 1000, groups := [] } }

/-- A process 4321 run by another unprivileged user, 1001, on a machine where 1234 is
alive. -/
def otherUserEnv : Env :=
  { pid := 4321, processExists := fun p => p = 1234 || p = 4321, intSize := 64, umask := 0o022,
    cred := { uid := 1001, gid := 1001, groups := [] } }

/-- A later process 4321 of the same unprivileged user 1000, on a machine where 1234 is
alive. -/
def userLaterEnv : Env :=
  { pid := 4321, processExists := fun p => p = 1234 || p = 4321, intSize := 64, umask := 0o022,
    cred := { uid := 1000, gid := 1000, groups := [] } }

/-- A tree with directory `/run`, of mode `dirMode` and owner `dirOwner`, and in it the file
`/run/app.pid` of the given content, mode and owner. -/
def worldOwned (dirMode dirOwner : Nat) (data : List Nat) (mode owner : Nat) : World :=
  { fs := { nodes := [(["run"], .dir { mode := dirMode, uid := dirOwner, gid := dirOwner }),
                      (["run", "app.pid"],
                        .file data { mode := mode, uid := owner, gid := owner })],
            cwd := [] },
    probes := [] }

/-- A tree with nothing but the directory `/run`, owned by user 1000 with mode 0755. -/
def userRunWorld : World :=
  { fs := { nodes := [(["run"], .dir { mode := 0o755, uid := 1000, gid := 1000 })], cwd := [] },
    probes := [] }

/-- A tree in which `/a` is a regular file. -/
def worldFileA : World :=
  { fs := { nodes := [(["a"], .file [] { mode := 0o644, uid := 0, gid := 0 })], cwd := [] },
    probes := [] }

/-- The state after `n` calls of `Write` on marker `p` in a row, whatever they return. -/
def writeTimes (env : Env) (p : PIDFile) : Nat → World → World
  | 0, w => w
  | n + 1, w => writeTimes env p n (p.Write env w).2

/-! ## The model at sample inputs -/

theorem formatDecimal_samples :
    fmt.formatDecimal 1234 = [49, 50, 51, 52] ∧ fmt.formatDecimal (-7) = [45, 55] ∧
      fmt.formatDecimal 0 = [48] := by
  refine ⟨by decide, by decide, by decide⟩

theorem trimSpace_samples :
    strings.TrimSpace [32, 9, 49, 50, 10] = [49, 50] ∧
      strings.TrimSpace [226, 128, 168, 49, 50, 194, 160, 13, 10] = [49, 50] ∧
      strings.TrimSpace [49, 32, 50] = [49, 32, 50] ∧
      strings.TrimSpace [255, 32] = [255] := by
  refine ⟨by decide, by decide, by decide, by decide⟩

theorem atoi_accepts_samples :
    strconv.Atoi 64 [49, 50] = some 12 ∧ strconv.Atoi 64 [43, 48, 49, 50] = some 12 ∧
      strconv.Atoi 64 [45, 49, 50] = some (-12) ∧
      strconv.Atoi 64 (fmt.formatDecimal 9223372036854775807) = some 9223372036854775807 ∧
      strconv.Atoi 64 (fmt.formatDecimal (-9223372036854775808)) =
        some (-9223372036854775808) := by
  refine ⟨by decide, by decide, by decide, by decide, by decide⟩

/-- The contents that are no identifier once trimmed: letters, nothing, white space only,
a lone sign, digits mixed with letters, inner white space, a number beyond `int`. -/
theorem atoi_rejects_samples :
    strconv.Atoi 64 (strings.TrimSpace [97, 98, 99]) = none ∧
      strconv.Atoi 64 (strings.TrimSpace []) = none ∧
      strconv.Atoi 64 (strings.TrimSpace [32, 10]) = none ∧
      strconv.Atoi 64 (strings.TrimSpace [45]) = none ∧
      strconv.Atoi 64 (strings.TrimSpace [49, 50, 97, 10]) = none ∧
      strconv.Atoi 64 (strings.TrimSpace [49, 32, 50]) = none ∧
      strconv.Atoi 64 (strings.TrimSpace (fmt.formatDecimal 9223372036854775808)) = none ∧
      strconv.Atoi 32 (strings.TrimSpace (fmt.formatDecimal 2147483648)) = none := by
  refine ⟨by decide, by decide, by decide, by decide, by decide, by decide, by decide,
    by decide⟩

theorem dir_samples :
    filepath.Dir "/run/app.pid" = "/run" ∧ filepath.Dir "app.pid" = "." ∧
      filepath.Dir "/app.pid" = "/" ∧ filepath.Dir "a/b/../c/x.pid" = "a/c" ∧
      filepath.Dir "../x.pid" = ".." ∧ filepath.Dir "a//b/./c" = "a/b" ∧
      filepath.Dir "/a/b/" = "/a/b" ∧ filepath.Dir "" = "." ∧
      filepath.Dir "/../a/b" = "/a" := by
  refine ⟨by decide, by decide, by decide, by decide, by decide, by decide, by decide,
    by decide, by decide⟩

theorem components_samples :
    components "/run//app.pid" = ["run", "app.pid"] ∧ components "run/" = ["run", "."] ∧
      components "/" = [] := by
  refine ⟨by decide, by decide, by decide⟩

theorem new_samples :
    New sampleEnv emptyWorld "/run/app.pid" =
        (.ok { path := "/run/app.pid" },
         { fs := { nodes := [(["run", "app.pid"],
                               .file [49, 50, 51, 52] { mode := 0o600, uid := 0, gid := 0 }),
                             (["run"], .dir { mode := 0o755, uid := 0, gid := 0 })],
                   cwd := [] },
           probes := [] }) ∧
      New sampleEnv (worldWith [57, 57, 57, 57, 57, 10] 0o644) "/run/app.pid" =
        (.error (conflictError "/run/app.pid"),
         { (worldWith [57, 57, 57, 57, 57, 10] 0o644) with probes := [99999] }) ∧
      New sampleEnv (worldWith [55, 55] 0o644) "/run/app.pid" =
        (.ok { path := "/run/app.pid" },
         { fs := { nodes := [(["run", "app.pid"],
                               .file [49, 50, 51, 52] { mode := 0o644, uid := 0, gid := 0 }),
                             (["run"], .dir { mode := 0o755, uid := 0, gid := 0 })],
                   cwd := [] },
           probes := [77] }) := by
  refine ⟨by decide, by decide, by decide⟩

/-- The permission check at sample inputs: the owner of a 0600 file may read and write it,
another user may do neither, user 0 may do both; a 0755 directory of user 0 lets everybody
search it and nobody else write to it. -/
theorem permits_samples :
    permits userEnv.cred { mode := 0o600, uid := 1000, gid := 1000 } .read = true ∧
      permits userEnv.cred { mode := 0o600, uid := 1000, gid := 1000 } .write = true ∧
      permits otherUserEnv.cred { mode := 0o600, uid := 1000, gid := 1000 } .read = false ∧
      permits otherUserEnv.cred { mode := 0o600, uid := 1000, gid := 1000 } .write = false ∧
      permits Cred.root { mode := 0o600, uid := 1000, gid := 1000 } .read = true ∧
      permits userEnv.cred { mode := 0o755, uid := 0, gid := 0 } .search = true ∧
      permits userEnv.cred { mode := 0o755, uid := 0, gid := 0 } .write = false ∧
      permits userEnv.cred { mode := 0o200, uid := 1000, gid := 1000 } .read = false := by
  refine ⟨by decide, by decide, by decide, by decide, by decide, by decide, by decide,
    by decide⟩

/-- The filesystem calls at sample inputs where access is refused: another user cannot read
or write a 0600 file, an unprivileged user cannot make a file in a directory of user 0, and
cannot remove its own file from one. -/
theorem access_samples :
    os.ReadFile otherUserEnv.cred (worldOwned 0o755 1000 [49] 0o600 1000).fs "/run/app.pid" =
        .error (.pathError "open" "/run/app.pid" .EACCES) ∧
      os.WriteFile otherUserEnv.cred 0o022 (worldOwned 0o755 1000 [49] 0o600 1000).fs
        "/run/app.pid" [50] 0o600 = .error (.pathError "open" "/run/app.pid" .EACCES) ∧
      os.ReadFile userEnv.cred (worldOwned 0o755 1000 [49] 0o600 1000).fs "/run/app.pid" =
        .ok [49] ∧
      os.WriteFile userEnv.cred 0o022 emptyWorld.fs "/app.pid" [49] 0o600 =
        .error (.pathError "open" "/app.pid" .EACCES) ∧
      os.Remove userEnv.cred (worldOwned 0o755 0 [49] 0o644 1000).fs "/run/app.pid" =
        .error (.pathError "remove" "/run/app.pid" .EACCES) ∧
      os.Remove otherUserEnv.cred (worldOwned 0o1777 0 [49] 0o644 1000).fs "/run/app.pid" =
        .error (.pathError "remove" "/run/app.pid" .EPERM) ∧
      (MkdirAll userEnv.cred 0o022 emptyWorld.fs "/run" 0o755).2 =
        some (.pathError "mkdir" "/run" .EACCES) := by
  refine ⟨by decide, by decide, by decide, by decide, by decide, by decide, by decide⟩

/-! ## Facts about the filesystem model -/

theorem lookupNode_dropNode (nodes : List (Loc × Node)) (k k' : Loc) :
    lookupNode (dropNode nodes k) k' = if k' = k then none else lookupNode nodes k' := by
  induction nodes with
  | nil => simp [lookupNode, dropNode]
  | cons e rest ih =>
    obtain ⟨ke, ne⟩ := e
    by_cases hk : ke = k
    · by_cases hk' : k' = k
      · subst hk'; subst hk
        simpa [dropNode] using ih
      · have : ¬ k = k' := fun h => hk' h.symm
        simp [dropNode, hk, ih, hk', lookupNode, this]
    · by_cases hke : ke = k'
      · have : ¬ k' = k := fun h => hk (hke.trans h)
        simp [dropNode, hk, lookupNode, hke, this]
      · simp [dropNode, hk, lookupNode, hke, ih]

theorem node_put (fs : FS) (k k' : Loc) (n : Node) (hk : k ≠ []) :
    (fs.put k n).node k' = if k' = k then some n else fs.node k' := by
  unfold FS.node FS.put
  by_cases h0 : k' = []
  · subst h0
    have : ¬ ([] : Loc) = k := fun h => hk h.symm
    simp [this]
  · by_cases h1 : k' = k
    · subst h1; simp [h0, lookupNode]
    · have : ¬ k = k' := fun h => h1 h.symm
      simp [h0, h1, lookupNode, this, lookupNode_dropNode]

theorem node_del (fs : FS) (k k' : Loc) (hk : k ≠ []) :
    (fs.del k).node k' = if k' = k then none else fs.node k' := by
  unfold FS.node FS.del
  by_cases h0 : k' = []
  · subst h0
    have : ¬ ([] : Loc) = k := fun h => hk h.symm
    simp [this]
  · simp [h0, lookupNode_dropNode]

theorem node_nil (fs : FS) : fs.node [] = some (.dir { mode := 0o755, uid := 0, gid := 0 }) := by
  simp [FS.node]

theorem put_cwd (fs : FS) (k : Loc) (n : Node) : (fs.put k n).cwd = fs.cwd := rfl

theorem del_cwd (fs : FS) (k : Loc) : (fs.del k).cwd = fs.cwd := rfl

/-- User 0 passes every permission check. -/
theorem permits_root (st : Stat) (a : Access) : permits Cred.root st a = true := by
  simp [permits, Cred.root]

/-- Resolution only looks at directories: a tree that keeps the directories of another as
they are resolves at least the same paths to the same places, for the same process. -/
theorem walk_mono (cred : Cred) (fs fs' : FS)
    (hd : ∀ k st, fs.node k = some (.dir st) → fs'.node k = some (.dir st))
    (cs : List String) :
    ∀ (cur r : Loc), walk cred fs cur cs = .ok r → walk cred fs' cur cs = .ok r := by
  induction cs with
  | nil => intro cur r h; simpa [walk] using h
  | cons c cs ih =>
    intro cur r h
    unfold walk at h ⊢
    cases hn : fs.node cur with
    | none => simp [hn] at h
    | some n =>
      cases n with
      | file d st => simp [hn] at h
      | dir st =>
        simp only [hn] at h
        simp only [hd cur st hn]
        by_cases hp : permits cred st .search = true
        · simp only [hp, if_true] at h ⊢
          exact ih _ _ h
        · simp [hp] at h

/-- What a process can resolve, user 0 resolves to the same place. -/
theorem walk_root (cred : Cred) (fs : FS) (cs : List String) :
    ∀ (cur r : Loc), walk cred fs cur cs = .ok r → walk Cred.root fs cur cs = .ok r := by
  induction cs with
  | nil => intro cur r h; simpa [walk] using h
  | cons c cs ih =>
    intro cur r h
    unfold walk at h ⊢
    cases hn : fs.node cur with
    | none => simp [hn] at h
    | some n =>
      cases n with
      | file d st => simp [hn] at h
      | dir st =>
        simp only [hn] at h
        simp only [permits_root, if_true]
        by_cases hp : permits cred st .search = true
        · simp only [hp, if_true] at h
          exact ih _ _ h
        · simp [hp] at h

theorem resolve_mono (cred : Cred) (fs fs' : FS) (hc : fs'.cwd = fs.cwd)
    (hd : ∀ k st, fs.node k = some (.dir st) → fs'.node k = some (.dir st))
    (path : String) (r : Loc) (h : resolve cred fs path = .ok r) :
    resolve cred fs' path = .ok r := by
  unfold resolve at h ⊢
  by_cases hp : path.data = []
  · simp [hp] at h
  · simp only [hp, if_false] at h ⊢
    have hs : startLoc fs' path = startLoc fs path := by simp [startLoc, hc]
    rw [hs]
    exact walk_mono cred fs fs' hd _ _ _ h

theorem resolve_root (cred : Cred) (fs : FS) (path : String) (r : Loc)
    (h : resolve cred fs path = .ok r) : resolve Cred.root fs path = .ok r := by
  unfold resolve at h ⊢
  by_cases hp : path.data = []
  · simp [hp] at h
  · simp only [hp, if_false] at h ⊢
    exact walk_root cred fs _ _ _ h

/-- Writing a regular file at a place that holds no directory keeps every directory. -/
theorem put_file_keeps_dirs (fs : FS) (k : Loc) (data : List Nat) (st0 : Stat)
    (hk : ∀ st, fs.node k ≠ some (.dir st)) :
    ∀ k' st, fs.node k' = some (.dir st) →
      (fs.put k (.file data st0)).node k' = some (.dir st) := by
  intro k' st h
  have hne : k ≠ [] := by
    intro h0; subst h0; exact hk _ (node_nil fs)
  rw [node_put fs k k' _ hne]
  by_cases hkk : k' = k
  · subst hkk; exact absurd h (hk st)
  · simp [hkk, h]

/-- Dropping a place that holds no directory keeps every directory. -/
theorem del_keeps_dirs (fs : FS) (k : Loc) (hk : ∀ st, fs.node k ≠ some (.dir st)) :
    ∀ k' st, fs.node k' = some (.dir st) → (fs.del k).node k' = some (.dir st) := by
  intro k' st h
  have hne : k ≠ [] := by
    intro h0; subst h0; exact hk _ (node_nil fs)
  rw [node_del fs k k' hne]
  by_cases hkk : k' = k
  · subst hkk; exact absurd h (hk st)
  · simp [hkk, h]

/-- What a successful `os.WriteFile` did: the path resolved, for the process, to a place that
held no directory, and that place now holds a file with the data; mode, owner and group are
the old ones when a file was there, else the requested mode under the umask and the
identity of the process. -/
theorem writeFile_ok (cred : Cred) (umask : Nat) (fs fs' : FS) (name : String)
    (data : List Nat) (perm : Nat)
    (h : os.WriteFile cred umask fs name data perm = .ok fs') :
    ∃ k st, resolve cred fs name = .ok k ∧ (∀ st', fs.node k ≠ some (.dir st')) ∧
      fs' = fs.put k (.file data st) ∧
      (∀ d0 st0, fs.node k = some (.file d0 st0) → st = st0) ∧
      (fs.node k = none →
        st = { mode := applyUmask umask perm, uid := cred.uid, gid := cred.gid }) := by
  unfold os.WriteFile at h
  cases hr : resolve cred fs name with
  | error e => simp [hr] at h
  | ok k =>
    simp only [hr] at h
    cases hn : fs.node k with
    | none =>
      simp only [hn] at h
      cases hp : fs.node k.dropLast with
      | none => simp [hp] at h
      | some n =>
        cases n with
        | file d st => simp [hp] at h
        | dir pst =>
          simp only [hp] at h
          by_cases hw : permits cred pst .write = true
          · simp only [hw, if_true, Except.ok.injEq] at h
            exact ⟨k, _, rfl, by simp [hn], h.symm, by simp [hn], fun _ => rfl⟩
          · simp [hw] at h
    | some n =>
      cases n with
      | dir st => simp [hn] at h
      | file d st =>
        simp only [hn] at h
        by_cases hw : permits cred st .write = true
        · simp only [hw, if_true, Except.ok.injEq] at h
          refine ⟨k, st, rfl, by simp [hn], h.symm, ?_, by simp [hn]⟩
          intro d0 st0 h0
          simp only [hn, Option.some.injEq, Node.file.injEq] at h0
          exact h0.2
        · simp [hw] at h

/-- After a successful `os.WriteFile` the path names a file with exactly the data; its mode
is the old one when a file was there, else the requested one under the umask. -/
theorem fileAt_after_write (cred : Cred) (umask : Nat) (fs fs' : FS) (name : String)
    (data : List Nat) (perm : Nat)
    (h : os.WriteFile cred umask fs name data perm = .ok fs') :
    ∃ mode, fs'.fileAt name = some (data, mode) ∧
      (∀ d0 m0, fs.fileAt name = some (d0, m0) → mode = m0) ∧
      (fs.fileAt name = none → mode = applyUmask umask perm) := by
  obtain ⟨k, st, hr, hnd, hfs, hold, hnew⟩ := writeFile_ok cred umask fs fs' name data perm h
  have hroot := resolve_root cred fs name k hr
  have hne : k ≠ [] := by
    intro h0; subst h0; exact hnd _ (node_nil fs)
  have hr' : resolve Cred.root fs' name = .ok k := by
    subst hfs
    exact resolve_mono _ fs _ (put_cwd fs k _) (put_file_keeps_dirs fs k data st hnd) name k
      hroot
  have hn' : fs'.node k = some (.file data st) := by
    subst hfs
    rw [node_put fs k k _ hne]; simp
  refine ⟨st.mode, by simp [FS.fileAt, hr', hn'], ?_, ?_⟩
  · intro d0 m0 h0
    simp only [FS.fileAt, hroot] at h0
    cases hn : fs.node k with
    | none => simp [hn] at h0
    | some n =>
      cases n with
      | dir st' => simp [hn] at h0
      | file d st' =>
        simp only [hn, Option.some.injEq, Prod.mk.injEq] at h0
        have := hold d st' hn
        rw [this]
        exact h0.2
  · intro h0
    simp only [FS.fileAt, hroot] at h0
    cases hn : fs.node k with
    | none => rw [hnew hn]
    | some n =>
      cases n with
      | dir st' => exact absurd hn (hnd st')
      | file d st' => simp [hn] at h0

/-- A read that succeeds returns the bytes of the file the path names. -/
theorem readFile_ok_fileAt (cred : Cred) (fs : FS) (name : String) (data : List Nat)
    (h : os.ReadFile cred fs name = .ok data) : ∃ mode, fs.fileAt name = some (data, mode) := by
  unfold os.ReadFile at h
  cases hr : resolve cred fs name with
  | error e => simp [hr] at h
  | ok k =>
    have hroot := resolve_root cred fs name k hr
    simp only [hr] at h
    cases hn : fs.node k with
    | none => simp [hn] at h
    | some n =>
      cases n with
      | dir st =>
        simp only [hn] at h
        by_cases hp : permits cred st .read = true <;> simp [hp] at h
      | file d st =>
        simp only [hn] at h
        by_cases hp : permits cred st .read = true
        · simp only [hp, if_true, Except.ok.injEq] at h
          exact ⟨st.mode, by simp [FS.fileAt, hroot, hn, h]⟩
        · simp [hp] at h

/-- For user 0 reading succeeds exactly on the paths that name a regular file. -/
theorem readFile_root_iff (fs : FS) (name : String) (data : List Nat) :
    os.ReadFile Cred.root fs name = .ok data ↔ ∃ mode, fs.fileAt name = some (data, mode) := by
  constructor
  · exact readFile_ok_fileAt Cred.root fs name data
  · rintro ⟨mode, h⟩
    unfold FS.fileAt at h
    unfold os.ReadFile
    cases hr : resolve Cred.root fs name with
    | error e => simp [hr] at h
    | ok k =>
      simp only [hr] at h ⊢
      cases hn : fs.node k with
      | none => simp [hn] at h
      | some n =>
        cases n with
        | dir st => simp [hn] at h
        | file d st =>
          simp only [hn, Option.some.injEq, Prod.mk.injEq] at h
          simp [permits_root, h.1]

/-- Reading back after a successful `os.WriteFile`: user 0 reads exactly the data, whoever
reads something reads exactly the data, and the writer itself reads the data unless the
mode of the file refuses it. -/
theorem read_after_write (cred : Cred) (umask : Nat) (fs fs' : FS) (name : String)
    (data : List Nat) (perm : Nat)
    (h : os.WriteFile cred umask fs name data perm = .ok fs') :
    os.ReadFile Cred.root fs' name = .ok data ∧
      (∀ cred' d, os.ReadFile cred' fs' name = .ok d → d = data) ∧
      (os.ReadFile cred fs' name = .ok data ∨
        os.ReadFile cred fs' name = .error (.pathError "open" name .EACCES)) := by
  obtain ⟨mode, hm, _⟩ := fileAt_after_write cred umask fs fs' name data perm h
  refine ⟨(readFile_root_iff _ _ _).mpr ⟨mode, hm⟩, ?_, ?_⟩
  · intro cred' d hd
    obtain ⟨m', hm'⟩ := readFile_ok_fileAt cred' fs' name d hd
    rw [hm] at hm'
    simp only [Option.some.injEq, Prod.mk.injEq] at hm'
    exact hm'.1.symm
  · obtain ⟨k, st, hr, hnd, hfs, _, _⟩ := writeFile_ok cred umask fs fs' name data perm h
    have hne : k ≠ [] := by
      intro h0; subst h0; exact hnd _ (node_nil fs)
    subst hfs
    have hr' : resolve cred (fs.put k (.file data st)) name = .ok k :=
      resolve_mono _ fs _ (put_cwd fs k _) (put_file_keeps_dirs fs k data st hnd) name k hr
    have hn' : (fs.put k (.file data st)).node k = some (.file data st) := by
      rw [node_put fs k k _ hne]; simp
    unfold os.ReadFile
    simp only [hr', hn']
    by_cases hp : permits cred st .read = true
    · left; simp [hp]
    · right; simp [hp]

/-- Removing a path that names a regular file, by a process that can resolve the path and
may take the entry out of its directory, succeeds and leaves nothing under that path;
removing it again fails with "no such file or directory". -/
theorem remove_file (cred : Cred) (fs : FS) (name : String) (data : List Nat) (mode : Nat)
    (k : Loc) (hr : resolve cred fs name = .ok k)
    (h : fs.fileAt name = some (data, mode))
    (hp : fs.mayUnlink cred name = true) :
    ∃ fs', os.Remove cred fs name = .ok fs' ∧ fs'.fileAt name = none ∧
      (∀ cred' d, os.ReadFile cred' fs' name ≠ .ok d) ∧
      os.Remove cred fs' name = .error (.pathError "remove" name .ENOENT) := by
  have hroot := resolve_root cred fs name k hr
  unfold FS.fileAt at h
  unfold FS.mayUnlink at hp
  simp only [hroot] at h hp
  cases hn : fs.node k with
  | none => simp [hn] at h
  | some n =>
    cases n with
    | dir st => simp [hn] at h
    | file d st =>
      have hnd : ∀ st', fs.node k ≠ some (.dir st') := by simp [hn]
      have hne : k ≠ [] := by
        intro h0; subst h0; exact hnd _ (node_nil fs)
      have hu : unlinkError cred fs k = none := by
        cases hu : unlinkError cred fs k with
        | none => rfl
        | some e => simp [hu] at hp
      have hr' : resolve cred (fs.del k) name = .ok k :=
        resolve_mono _ fs _ (del_cwd fs k) (del_keeps_dirs fs k hnd) name k hr
      have hroot' : resolve Cred.root (fs.del k) name = .ok k :=
        resolve_root cred _ name k hr'
      have hn' : (fs.del k).node k = none := by
        rw [node_del fs k k hne]; simp
      have hfa : (fs.del k).fileAt name = none := by simp [FS.fileAt, hroot', hn']
      refine ⟨fs.del k, by simp [os.Remove, hr, hn, hu], hfa, ?_,
        by simp [os.Remove, hr', hn']⟩
      intro cred' d' hd'
      obtain ⟨m', hm'⟩ := readFile_ok_fileAt _ _ _ _ hd'
      simp [hfa] at hm'

/-- A removal of a regular file that succeeds was permitted. -/
theorem remove_ok_permitted (cred : Cred) (fs fs' : FS) (name : String) (data : List Nat)
    (mode : Nat) (h : fs.fileAt name = some (data, mode))
    (hrm : os.Remove cred fs name = .ok fs') : fs.mayUnlink cred name = true := by
  unfold os.Remove at hrm
  cases hr : resolve cred fs name with
  | error e => simp [hr] at hrm
  | ok k =>
    have hroot := resolve_root cred fs name k hr
    unfold FS.fileAt at h
    unfold FS.mayUnlink
    simp only [hroot] at h ⊢
    simp only [hr] at hrm
    cases hn : fs.node k with
    | none => simp [hn] at h
    | some n =>
      cases n with
      | dir st => simp [hn] at h
      | file d st =>
        simp only [hn] at hrm
        cases hu : unlinkError cred fs k with
        | none => rfl
        | some e => simp [hu] at hrm

/-! ## Facts about the text primitives -/

theorem stripFront_numeral (b : Nat) (t : List Nat) (hb : numeralByte b) :
    stripFront spaceEncodings (b :: t) = none := by
  have h1 : b ≠ 9 ∧ b ≠ 10 ∧ b ≠ 11 ∧ b ≠ 12 ∧ b ≠ 13 ∧ b ≠ 32 ∧ b ≠ 194 ∧ b ≠ 225 ∧
      b ≠ 226 ∧ b ≠ 227 := by
    unfold numeralByte at hb; omega
  obtain ⟨h9, h10, h11, h12, h13, h32, h194, h225, h226, h227⟩ := h1
  simp [stripFront, spaceEncodings, List.isPrefixOf, Ne.symm h9, Ne.symm h10, Ne.symm h11,
    Ne.symm h12, Ne.symm h13, Ne.symm h32, Ne.symm h194, Ne.symm h225, Ne.symm h226,
    Ne.symm h227]

theorem stripFront_rev_numeral (b : Nat) (t : List Nat) (hb : numeralByte b) :
    stripFront (spaceEncodings.map List.reverse) (b :: t) = none := by
  have h1 : b ≠ 9 ∧ b ≠ 10 ∧ b ≠ 11 ∧ b ≠ 12 ∧ b ≠ 13 ∧ b ≠ 32 ∧ b ≠ 133 ∧ b ≠ 160 ∧
      b ≠ 128 ∧ b ≠ 129 ∧ b ≠ 130 ∧ b ≠ 131 ∧ b ≠ 132 ∧ b ≠ 134 ∧ b ≠ 135 ∧ b ≠ 136 ∧
      b ≠ 137 ∧ b ≠ 138 ∧ b ≠ 168 ∧ b ≠ 169 ∧ b ≠ 175 ∧ b ≠ 159 := by
    unfold numeralByte at hb; omega
  obtain ⟨h9, h10, h11, h12, h13, h32, h133, h160, h128, h129, h130, h131, h132, h134, h135,
    h136, h137, h138, h168, h169, h175, h159⟩ := h1
  simp [stripFront, spaceEncodings, List.isPrefixOf, Ne.symm h9, Ne.symm h10, Ne.symm h11,
    Ne.symm h12, Ne.symm h13, Ne.symm h32, Ne.symm h133, Ne.symm h160, Ne.symm h128,
    Ne.symm h129, Ne.symm h130, Ne.symm h131, Ne.symm h132, Ne.symm h134, Ne.symm h135,
    Ne.symm h136, Ne.symm h137, Ne.symm h138, Ne.symm h168, Ne.symm h169, Ne.symm h175,
    Ne.symm h159]

theorem stripFront_nil (table : List (List Nat)) (h : ∀ e ∈ table, e ≠ []) :
    stripFront table [] = none := by
  induction table with
  | nil => rfl
  | cons e rest ih =>
    have he : e ≠ [] := h e (List.mem_cons_self _ _)
    have hr : ∀ e' ∈ rest, e' ≠ [] := fun e' he' => h e' (List.mem_cons_of_mem _ he')
    cases e with
    | nil => exact absurd rfl he
    | cons a l => simp [stripFront, List.isPrefixOf, ih hr]

theorem trimFront_of_none (table : List (List Nat)) (s : List Nat)
    (h : stripFront table s = none) : ∀ fuel, trimFront table fuel s = s := by
  intro fuel
  cases fuel with
  | zero => rfl
  | succ n => simp [trimFront, h]

theorem spaceEncodings_ne_nil : ∀ e ∈ spaceEncodings, e ≠ [] := by decide

theorem spaceEncodings_rev_ne_nil : ∀ e ∈ spaceEncodings.map List.reverse, e ≠ [] := by decide

theorem trimFront_numeral (s : List Nat) (hs : ∀ b ∈ s, numeralByte b) (fuel : Nat) :
    trimFront spaceEncodings fuel s = s := by
  cases s with
  | nil => exact trimFront_of_none _ _ (stripFront_nil _ spaceEncodings_ne_nil) fuel
  | cons b t =>
    exact trimFront_of_none _ _ (stripFront_numeral b t (hs b (List.mem_cons_self _ _))) fuel

theorem trimFront_rev_numeral (s : List Nat) (hs : ∀ b ∈ s, numeralByte b) (fuel : Nat) :
    trimFront (spaceEncodings.map List.reverse) fuel s = s := by
  cases s with
  | nil => exact trimFront_of_none _ _ (stripFront_nil _ spaceEncodings_rev_ne_nil) fuel
  | cons b t =>
    exact trimFront_of_none _ _ (stripFront_rev_numeral b t (hs b (List.mem_cons_self _ _))) fuel

/-- Trimming leaves a numeral as it is. -/
theorem trimSpace_numeral (s : List Nat) (hs : ∀ b ∈ s, numeralByte b) :
    strings.TrimSpace s = s := by
  unfold strings.TrimSpace trimRightSpace trimLeftSpace
  rw [trimFront_numeral s hs]
  rw [trimFront_rev_numeral s.reverse (fun b hb => hs b (List.mem_reverse.mp hb))]
  exact List.reverse_reverse s

/-- Trimming takes the newline off a numeral that is followed by one. -/
theorem trimSpace_numeral_newline (s : List Nat) (hs : ∀ b ∈ s, numeralByte b) (hne : s ≠ []) :
    strings.TrimSpace (s ++ [10]) = s := by
  unfold strings.TrimSpace trimRightSpace trimLeftSpace
  have hfront : trimFront spaceEncodings (s ++ [10]).length (s ++ [10]) = s ++ [10] := by
    cases s with
    | nil => exact absurd rfl hne
    | cons b t =>
      exact trimFront_of_none _ _
        (stripFront_numeral b (t ++ [10]) (hs b (List.mem_cons_self _ _))) _
  rw [hfront]
  have hrev : (s ++ [10]).reverse = 10 :: s.reverse := by simp
  have hlen : (s ++ [10]).length = s.length + 1 := by simp
  rw [hrev, hlen]
  have hstrip : stripFront (spaceEncodings.map List.reverse) (10 :: s.reverse) =
      some s.reverse := by
    simp [stripFront, spaceEncodings, List.isPrefixOf]
  simp only [trimFront, hstrip]
  rw [trimFront_rev_numeral s.reverse (fun b hb => hs b (List.mem_reverse.mp hb))]
  exact List.reverse_reverse s

/-- The digits `decimalDigits` puts in front of `acc`: a non-empty run of digit bytes that
reads back as `n`. -/
theorem decimalDigits_spec : ∀ (fuel n : Nat) (acc : List Nat), n < fuel →
    ∃ ds, decimalDigits fuel n acc = ds ++ acc ∧ ds ≠ [] ∧ (∀ b ∈ ds, 48 ≤ b ∧ b ≤ 57) ∧
      ∀ (a : Nat) (rest : List Nat),
        parseDigits (ds ++ rest) a = parseDigits rest (a * 10 ^ ds.length + n) := by
  intro fuel
  induction fuel with
  | zero => intro n acc h; omega
  | succ fuel ih =>
    intro n acc h
    by_cases hn : n < 10
    · refine ⟨[48 + n], by simp [decimalDigits, hn], by simp, ?_, ?_⟩
      · intro b hb
        simp only [List.mem_singleton] at hb
        omega
      · intro a rest
        have h1 : 48 ≤ 48 + n ∧ 48 + n ≤ 57 := by omega
        simp [parseDigits, h1]
    · have hlt : n / 10 < fuel := by omega
      obtain ⟨ds, hds, hne, hdig, hval⟩ := ih (n / 10) ((48 + n % 10) :: acc) hlt
      refine ⟨ds ++ [48 + n % 10], ?_, by simp, ?_, ?_⟩
      · simp [decimalDigits, hn, hds]
      · intro b hb
        rcases List.mem_append.mp hb with hb | hb
        · exact hdig b hb
        · simp only [List.mem_singleton] at hb
          omega
      · intro a rest
        have h1 : 48 ≤ 48 + n % 10 ∧ 48 + n % 10 ≤ 57 := by omega
        rw [List.append_assoc, hval a ([48 + n % 10] ++ rest)]
        simp only [List.singleton_append, parseDigits, h1, and_self, if_true,
          List.length_append, List.length_singleton]
        congr 1
        have h2 : 48 + n % 10 - 48 = n % 10 := by omega
        rw [h2, pow_succ]
        have h3 : n / 10 * 10 + n % 10 = n := by omega
        nlinarith [h3]

/-- The digits of `decimalDigits` are the base-10 digits of `n` (Mathlib's `Nat.digits`,
least significant first) in reverse, as ASCII. -/
theorem decimalDigits_eq_digits : ∀ (fuel n : Nat) (acc : List Nat), n < fuel → 0 < n →
    decimalDigits fuel n acc = ((Nat.digits 10 n).reverse.map (fun d => 48 + d)) ++ acc := by
  intro fuel
  induction fuel with
  | zero => intro n acc h; omega
  | succ fuel ih =>
    intro n acc h hpos
    by_cases hn : n < 10
    · have hd : Nat.digits 10 n = [n] := Nat.digits_of_lt 10 n (by omega) hn
      simp [decimalDigits, hn, hd]
    · have hd : Nat.digits 10 n = (n % 10) :: Nat.digits 10 (n / 10) :=
        Nat.digits_def' (by norm_num) hpos
      have hlt : n / 10 < fuel := by omega
      have hq : 0 < n / 10 := by omega
      simp [decimalDigits, hn, hd, ih (n / 10) _ hlt hq]

/-- The text of `%d` for a positive value is its base-10 numeral. -/
theorem formatDecimal_eq_digits (v : Int) (hv : 0 < v) :
    fmt.formatDecimal v = (Nat.digits 10 v.toNat).reverse.map (fun d => 48 + d) := by
  have hneg : ¬ v < 0 := by omega
  have hpos : 0 < v.toNat := by omega
  simp [fmt.formatDecimal, hneg,
    decimalDigits_eq_digits (v.toNat + 1) v.toNat [] (Nat.lt_succ_self _) hpos]

/-- The text of `%d`: digits, after a minus sign for a negative value. -/
theorem formatDecimal_shape (v : Int) :
    ∃ ds, ds ≠ [] ∧ (∀ b ∈ ds, 48 ≤ b ∧ b ≤ 57) ∧
      fmt.formatDecimal v = (if v < 0 then [45] else []) ++ ds ∧
      parseDigits ds 0 = some v.natAbs := by
  unfold fmt.formatDecimal
  by_cases hv : v < 0
  · obtain ⟨ds, hds, hne, hdig, hval⟩ :=
      decimalDigits_spec (v.natAbs + 1) v.natAbs [] (Nat.lt_succ_self _)
    refine ⟨ds, hne, hdig, by simp [hv, hds], ?_⟩
    have := hval 0 []
    simpa [parseDigits] using this
  · obtain ⟨ds, hds, hne, hdig, hval⟩ :=
      decimalDigits_spec (v.toNat + 1) v.toNat [] (Nat.lt_succ_self _)
    refine ⟨ds, hne, hdig, by simp [hv, hds], ?_⟩
    have := hval 0 []
    have hnat : v.toNat = v.natAbs := by omega
    simpa [parseDigits, hnat] using this

/-- Every byte of the text of `%d` is a minus sign or a digit; in particular none is a
newline or other white space. -/
theorem formatDecimal_numeral (v : Int) : ∀ b ∈ fmt.formatDecimal v, numeralByte b := by
  obtain ⟨ds, _, hdig, hshape, _⟩ := formatDecimal_shape v
  intro b hb
  rw [hshape] at hb
  rcases List.mem_append.mp hb with hb | hb
  · by_cases hv : v < 0
    · simp only [hv, if_true, List.mem_singleton] at hb
      exact Or.inl hb
    · simp [hv] at hb
  · exact Or.inr (hdig b hb)

theorem formatDecimal_ne_nil (v : Int) : fmt.formatDecimal v ≠ [] := by
  obtain ⟨ds, hne, _, hshape, _⟩ := formatDecimal_shape v
  rw [hshape]
  simp [hne]

/-- Reading with `strconv.Atoi` takes the text of `%d` back to the value it was made from. -/
theorem atoi_formatDecimal (intSize : Nat) (v : Int) (h : inIntRange intSize v) :
    strconv.Atoi intSize (fmt.formatDecimal v) = some v := by
  obtain ⟨ds, hne, hdig, hshape, hval⟩ := formatDecimal_shape v
  obtain ⟨hlo, hhi⟩ := h
  rw [hshape]
  cases ds with
  | nil => exact absurd rfl hne
  | cons b t =>
    have hb : 48 ≤ b ∧ b ≤ 57 := hdig b (List.mem_cons_self _ _)
    by_cases hv : v < 0
    · have hle : v.natAbs ≤ 2 ^ (intSize - 1) := by omega
      simp only [strconv.Atoi, hv, if_true, List.singleton_append, List.head?_cons,
        true_or, List.tail_cons, hval, hle]
      simp only [reduceCtorEq, if_false, Option.some.injEq]
      omega
    · have h45 : ¬ b = 45 := by omega
      have h43 : ¬ b = 43 := by omega
      have hlt : v.natAbs < 2 ^ (intSize - 1) := by omega
      have hback : ((v.natAbs : Nat) : Int) = v := by omega
      simp [strconv.Atoi, hv, hval, h45, h43, hlt, hback]

/-- Round trip of the content `New` writes. -/
theorem atoi_trim_formatDecimal (intSize : Nat) (v : Int) (h : inIntRange intSize v) :
    strconv.Atoi intSize (strings.TrimSpace (fmt.formatDecimal v)) = some v := by
  rw [trimSpace_numeral _ (formatDecimal_numeral v)]
  exact atoi_formatDecimal intSize v h

/-- Round trip of the content `Write` writes. -/
theorem atoi_trim_formatDecimal_newline (intSize : Nat) (v : Int) (h : inIntRange intSize v) :
    strconv.Atoi intSize (strings.TrimSpace (fmt.formatDecimal v ++ [10])) = some v := by
  rw [trimSpace_numeral_newline _ (formatDecimal_numeral v) (formatDecimal_ne_nil v)]
  exact atoi_formatDecimal intSize v h

/-! ## The operations of the package -/

/-- The check on a file the process reads, with a live identifier. -/
theorem check_live (env : Env) (w : World) (path : String) (content : List Nat) (pid : Int)
    (hread : os.ReadFile env.cred w.fs path = .ok content)
    (hpid : strconv.Atoi env.intSize (strings.TrimSpace content) = some pid)
    (halive : env.processExists pid = true) :
    checkPIDFileAlreadyExists env w path =
      (some (conflictError path), { w with probes := pid :: w.probes }) := by
  simp [checkPIDFileAlreadyExists, hread, hpid, halive]

/-- The check on a file the process reads, with the identifier of a process that is gone. -/
theorem check_stale (env : Env) (w : World) (path : String) (content : List Nat) (pid : Int)
    (hread : os.ReadFile env.cred w.fs path = .ok content)
    (hpid : strconv.Atoi env.intSize (strings.TrimSpace content) = some pid)
    (hdead : env.processExists pid = false) :
    checkPIDFileAlreadyExists env w path = (none, { w with probes := pid :: w.probes }) := by
  simp [checkPIDFileAlreadyExists, hread, hpid, hdead]

/-- The check on a file the process reads, whose content is no integer. -/
theorem check_malformed (env : Env) (w : World) (path : String) (content : List Nat)
    (hread : os.ReadFile env.cred w.fs path = .ok content)
    (hbad : strconv.Atoi env.intSize (strings.TrimSpace content) = none) :
    checkPIDFileAlreadyExists env w path = (none, w) := by
  simp [checkPIDFileAlreadyExists, hread, hbad]

/-- The check on a path that cannot be read. -/
theorem check_unreadable (env : Env) (w : World) (path : String) (e : GoError)
    (hread : os.ReadFile env.cred w.fs path = .error e) :
    checkPIDFileAlreadyExists env w path = (none, w) := by
  simp [checkPIDFileAlreadyExists, hread]

/-- The check never touches the filesystem. -/
theorem check_fs (env : Env) (w : World) (path : String) :
    (checkPIDFileAlreadyExists env w path).2.fs = w.fs := by
  unfold checkPIDFileAlreadyExists
  cases os.ReadFile env.cred w.fs path with
  | error e => rfl
  | ok c =>
    simp only
    cases strconv.Atoi env.intSize (strings.TrimSpace c) with
    | none => rfl
    | some pid =>
      simp only
      cases env.processExists pid <;> rfl

/-- The check finds no conflict in a file whose stored content is the identifier of a
process that is gone, whether or not the process can read the file. -/
theorem check_stale_stored (env : Env) (w : World) (path : String) (content : List Nat)
    (mode : Nat) (pid : Int)
    (hfile : w.fs.fileAt path = some (content, mode))
    (hpid : strconv.Atoi env.intSize (strings.TrimSpace content) = some pid)
    (hdead : env.processExists pid = false) :
    ∃ w1, checkPIDFileAlreadyExists env w path = (none, w1) ∧ w1.fs = w.fs := by
  cases hread : os.ReadFile env.cred w.fs path with
  | error e => exact ⟨w, check_unreadable env w path e hread, rfl⟩
  | ok c =>
    obtain ⟨m, hm⟩ := readFile_ok_fileAt _ _ _ _ hread
    rw [hfile] at hm
    simp only [Option.some.injEq, Prod.mk.injEq] at hm
    have hc : c = content := hm.1.symm
    subst hc
    exact ⟨_, check_stale env w path c pid hread hpid hdead, rfl⟩

/-- The check finds no conflict and asks nothing about a file whose stored content is no
integer, whether or not the process can read the file. -/
theorem check_malformed_stored (env : Env) (w : World) (path : String) (content : List Nat)
    (mode : Nat)
    (hfile : w.fs.fileAt path = some (content, mode))
    (hbad : strconv.Atoi env.intSize (strings.TrimSpace content) = none) :
    checkPIDFileAlreadyExists env w path = (none, w) := by
  cases hread : os.ReadFile env.cred w.fs path with
  | error e => exact check_unreadable env w path e hread
  | ok c =>
    obtain ⟨m, hm⟩ := readFile_ok_fileAt _ _ _ _ hread
    rw [hfile] at hm
    simp only [Option.some.injEq, Prod.mk.injEq] at hm
    have hc : c = content := hm.1.symm
    subst hc
    exact check_malformed env w path c hread hbad

/-- The result of `New` after a check that found no conflict, when the directory and the file
can be made. -/
theorem new_of_no_conflict (env : Env) (w w1 : World) (path : String) (fs1 fs2 : FS)
    (hcheck : checkPIDFileAlreadyExists env w path = (none, w1))
    (hmk : MkdirAll env.cred env.umask w1.fs (filepath.Dir path) 0o755 = (fs1, none))
    (hwr : os.WriteFile env.cred env.umask fs1 path (fmt.formatDecimal env.pid) 0o600 =
      .ok fs2) :
    New env w path = (.ok { path := path }, { w1 with fs := fs2 }) := by
  simp [New, hcheck, hmk, hwr]

/-- An error of `os.WriteFile` is a `PathError` of the `open` step on the name given. -/
theorem writeFile_error_shape (cred : Cred) (umask : Nat) (fs : FS) (name : String)
    (data : List Nat) (perm : Nat) (e : GoError)
    (h : os.WriteFile cred umask fs name data perm = .error e) :
    ∃ errno, e = .pathError "open" name errno := by
  unfold os.WriteFile at h
  cases hr : resolve cred fs name with
  | error e0 =>
    simp only [hr, Except.error.injEq] at h
    exact ⟨e0, h.symm⟩
  | ok k =>
    simp only [hr] at h
    cases hn : fs.node k with
    | none =>
      simp only [hn] at h
      cases hp : fs.node k.dropLast with
      | none =>
        simp only [hp, Except.error.injEq] at h
        exact ⟨_, h.symm⟩
      | some n =>
        cases n with
        | file d st =>
          simp only [hp, Except.error.injEq] at h
          exact ⟨_, h.symm⟩
        | dir pst =>
          simp only [hp] at h
          by_cases hw : permits cred pst .write = true
          · simp [hw] at h
          · simp only [hw, Bool.false_eq_true, if_false, Except.error.injEq] at h
            exact ⟨_, h.symm⟩
    | some n =>
      cases n with
      | dir st =>
        simp only [hn, Except.error.injEq] at h
        exact ⟨_, h.symm⟩
      | file d st =>
        simp only [hn] at h
        by_cases hw : permits cred st .write = true
        · simp [hw] at h
        · simp only [hw, Bool.false_eq_true, if_false, Except.error.injEq] at h
          exact ⟨_, h.symm⟩

/-- An error of `MkdirAll` is a `PathError` of `mkdir` on the directory asked for. -/
theorem mkdirAll_error_shape (cred : Cred) (umask : Nat) (fs fs1 : FS) (dir : String)
    (perm : Nat) (e : GoError) (h : MkdirAll cred umask fs dir perm = (fs1, some e)) :
    ∃ errno, e = .pathError "mkdir" dir errno := by
  unfold MkdirAll at h
  by_cases hp : dir.data = []
  · simp only [hp, if_true, Prod.mk.injEq, Option.some.injEq] at h
    exact ⟨_, h.2.symm⟩
  · simp only [hp, if_false] at h
    cases hw : mkdirWalk cred umask perm fs (startLoc fs dir) (components dir) with
    | mk fs' oe =>
      cases oe with
      | none => simp [hw] at h
      | some e0 =>
        simp only [hw, Prod.mk.injEq, Option.some.injEq] at h
        exact ⟨_, h.2.symm⟩

/-- What a successful `New` went through: no conflict, then the directory, then the file. -/
theorem new_ok (env : Env) (w : World) (path : String) (file : PIDFile)
    (h : (New env w path).1 = .ok file) :
    file = { path := path } ∧
      ∃ w1 fs1 fs2, checkPIDFileAlreadyExists env w path = (none, w1) ∧
        MkdirAll env.cred env.umask w1.fs (filepath.Dir path) 0o755 = (fs1, none) ∧
        os.WriteFile env.cred env.umask fs1 path (fmt.formatDecimal env.pid) 0o600 = .ok fs2 ∧
        New env w path = (.ok { path := path }, { w1 with fs := fs2 }) := by
  unfold New at h ⊢
  cases hc : checkPIDFileAlreadyExists env w path with
  | mk oe w1 =>
    cases oe with
    | some e => simp [hc] at h
    | none =>
      simp only [hc] at h ⊢
      cases hm : MkdirAll env.cred env.umask w1.fs (filepath.Dir path) 0o755 with
      | mk fs1 oe1 =>
        cases oe1 with
        | some e => simp [hm] at h
        | none =>
          simp only [hm] at h ⊢
          cases hw : os.WriteFile env.cred env.umask fs1 path (fmt.formatDecimal env.pid)
              0o600 with
          | error e => simp [hw] at h
          | ok fs2 =>
            simp only [hw, Except.ok.injEq] at h ⊢
            exact ⟨h.symm, w1, fs1, fs2, rfl, hm, hw, rfl⟩

/-- After a successful `os.WriteFile` the writer still resolves the path. -/
theorem resolve_after_write (cred : Cred) (umask : Nat) (fs fs' : FS) (name : String)
    (data : List Nat) (perm : Nat)
    (h : os.WriteFile cred umask fs name data perm = .ok fs') :
    ∃ k, resolve cred fs' name = .ok k := by
  obtain ⟨k, st, hr, hnd, hfs, _, _⟩ := writeFile_ok cred umask fs fs' name data perm h
  subst hfs
  exact ⟨k, resolve_mono _ fs _ (put_cwd fs k _) (put_file_keeps_dirs fs k data st hnd) name
    k hr⟩

/-- After a successful `New` the path names a file with the text of the identifier, and the
process resolves the path. -/
theorem new_ok_fileAt (env : Env) (w : World) (path : String) (file : PIDFile)
    (h : (New env w path).1 = .ok file) :
    file = { path := path } ∧
      (∃ mode, (New env w path).2.fs.fileAt path = some (fmt.formatDecimal env.pid, mode)) ∧
      ∃ k, resolve env.cred (New env w path).2.fs path = .ok k := by
  obtain ⟨hf, w1, fs1, fs2, _, _, hwr, hnew⟩ := new_ok env w path file h
  obtain ⟨m, hm, _⟩ := fileAt_after_write _ _ _ _ _ _ _ hwr
  obtain ⟨k, hk⟩ := resolve_after_write _ _ _ _ _ _ _ hwr
  rw [hnew]
  exact ⟨hf, ⟨m, hm⟩, k, hk⟩

/-- The walk of `MkdirAll` only adds: what a place held before it still holds, and the
working directory stays. -/
theorem mkdirWalk_keeps (cred : Cred) (umask perm : Nat) (cs : List String) :
    ∀ (fs : FS) (cur : Loc) (fs' : FS) (oe : Option Errno),
      mkdirWalk cred umask perm fs cur cs = (fs', oe) →
      fs'.cwd = fs.cwd ∧ ∀ k n, fs.node k = some n → fs'.node k = some n := by
  induction cs with
  | nil =>
    intro fs cur fs' oe h
    simp only [mkdirWalk, Prod.mk.injEq] at h
    obtain ⟨h1, _⟩ := h
    subst h1
    exact ⟨rfl, fun _ _ hk => hk⟩
  | cons c cs ih =>
    intro fs cur fs' oe h
    have hsame : ∀ (o : Option Errno), (fs, o) = (fs', oe) →
        fs'.cwd = fs.cwd ∧ ∀ k n, fs.node k = some n → fs'.node k = some n := by
      intro o ho
      simp only [Prod.mk.injEq] at ho
      obtain ⟨h1, _⟩ := ho
      subst h1
      exact ⟨rfl, fun _ _ hk => hk⟩
    unfold mkdirWalk at h
    cases hcur : fs.node cur with
    | none =>
      simp only [hcur] at h
      exact hsame _ h
    | some ncur =>
      cases ncur with
      | file d st =>
        simp only [hcur] at h
        exact hsame _ h
      | dir st =>
        simp only [hcur] at h
        by_cases hs : permits cred st .search = true
        · simp only [hs, if_true] at h
          cases hn : fs.node (stepLoc cur c) with
          | none =>
            simp only [hn] at h
            by_cases hw : permits cred st .write = true
            · simp only [hw, if_true] at h
              obtain ⟨hc, hk⟩ := ih _ _ _ _ h
              have hne : stepLoc cur c ≠ [] := by
                intro h0
                rw [h0, node_nil] at hn
                exact Option.noConfusion hn
              refine ⟨by rw [hc]; rfl, ?_⟩
              intro k n hkn
              apply hk
              rw [node_put fs _ k _ hne]
              by_cases hkk : k = stepLoc cur c
              · rw [hkk, hn] at hkn
                exact Option.noConfusion hkn
              · simp [hkk, hkn]
            · simp only [hw, Bool.false_eq_true, if_false] at h
              exact hsame _ h
          | some nd =>
            cases nd with
            | file d st' =>
              simp only [hn] at h
              exact hsame _ h
            | dir st' =>
              simp only [hn] at h
              exact ih _ _ _ _ h
        · simp only [hs, Bool.false_eq_true, if_false] at h
          exact hsame _ h

/-- The helper `MkdirAll` only adds: what a place held before it still holds. -/
theorem mkdirAll_keeps (cred : Cred) (umask : Nat) (fs fs1 : FS) (dir : String) (perm : Nat)
    (oe : Option GoError) (h : MkdirAll cred umask fs dir perm = (fs1, oe)) :
    fs1.cwd = fs.cwd ∧ ∀ k n, fs.node k = some n → fs1.node k = some n := by
  unfold MkdirAll at h
  by_cases hp : dir.data = []
  · simp only [hp, if_true, Prod.mk.injEq] at h
    obtain ⟨h1, _⟩ := h
    subst h1
    exact ⟨rfl, fun _ _ hk => hk⟩
  · simp only [hp, if_false] at h
    cases hw : mkdirWalk cred umask perm fs (startLoc fs dir) (components dir) with
    | mk fs' oe' =>
      have hk := mkdirWalk_keeps cred umask perm _ _ _ _ _ hw
      cases oe' with
      | none =>
        simp only [hw, Prod.mk.injEq] at h
        obtain ⟨h1, _⟩ := h
        subst h1
        exact hk
      | some e0 =>
        simp only [hw, Prod.mk.injEq] at h
        obtain ⟨h1, _⟩ := h
        subst h1
        exact hk

/-- A file that a path names is still what the path names after `MkdirAll`. -/
theorem mkdirAll_keeps_fileAt (cred : Cred) (umask : Nat) (fs fs1 : FS) (dir : String)
    (perm : Nat) (oe : Option GoError) (h : MkdirAll cred umask fs dir perm = (fs1, oe))
    (name : String) (data : List Nat) (mode : Nat)
    (hf : fs.fileAt name = some (data, mode)) : fs1.fileAt name = some (data, mode) := by
  obtain ⟨hc, hk⟩ := mkdirAll_keeps cred umask fs fs1 dir perm oe h
  unfold FS.fileAt at hf ⊢
  cases hr : resolve Cred.root fs name with
  | error e => simp [hr] at hf
  | ok k =>
    have hr' : resolve Cred.root fs1 name = .ok k :=
      resolve_mono _ fs fs1 hc (fun k' st hst => hk k' _ hst) name k hr
    simp only [hr] at hf
    simp only [hr']
    cases hn : fs.node k with
    | none => simp [hn] at hf
    | some nd =>
      rw [hk k nd hn]
      rw [hn] at hf
      exact hf

/-- Any number of `Write` calls on a marker whose path names a file holding the text of the
identifier (with or without a newline) leave it so, with the same mode. -/
theorem writeTimes_fileAt (env : Env) (p : PIDFile) :
    ∀ (n : Nat) (w : World) (c : List Nat) (m : Nat),
      w.fs.fileAt p.path = some (c, m) →
      (c = fmt.formatDecimal env.pid ∨ c = fmt.formatDecimal env.pid ++ [10]) →
      ∃ c', (writeTimes env p n w).fs.fileAt p.path = some (c', m) ∧
        (c' = fmt.formatDecimal env.pid ∨ c' = fmt.formatDecimal env.pid ++ [10]) := by
  intro n
  induction n with
  | zero =>
    intro w c m h hc
    exact ⟨c, h, hc⟩
  | succ n ih =>
    intro w c m h hc
    cases hw : os.WriteFile env.cred env.umask w.fs p.path (fmt.formatDecimal env.pid ++ [10])
        0o644 with
    | error e =>
      have hstep : (p.Write env w).2 = w := by simp [PIDFile.Write, hw]
      simp only [writeTimes, hstep]
      exact ih w c m h hc
    | ok fs' =>
      have hstep : (p.Write env w).2 = { w with fs := fs' } := by simp [PIDFile.Write, hw]
      obtain ⟨m', hf, hold, _⟩ := fileAt_after_write _ _ _ _ _ _ _ hw
      have hm : m' = m := hold c m h
      subst hm
      simp only [writeTimes, hstep]
      exact ih _ _ m' hf (Or.inr rfl)

/-- The whole result of `New` on a file the process reads, with a live identifier: the
conflict error, and the state with one more query recorded and the same filesystem. -/
theorem new_of_live (env : Env) (w : World) (path : String) (content : List Nat) (pid : Int)
    (hread : os.ReadFile env.cred w.fs path = .ok content)
    (hpid : strconv.Atoi env.intSize (strings.TrimSpace content) = some pid)
    (halive : env.processExists pid = true) :
    New env w path = (.error (conflictError path), { w with probes := pid :: w.probes }) := by
  have hcheck := check_live env w path content pid hread hpid halive
  simp [New, hcheck]

/-! ## The claims -/

/-- C1, as stated, fails: `/run/app.pid` holds "99999\n", 99999 is alive, but the file has
mode 0200 and its owner, an unprivileged process, cannot read it; the read error skips the
check, and `New` succeeds and writes its own identifier over the live marker. -/
theorem live_marker_unread_overwritten :
    (worldOwned 0o755 1000 [57, 57, 57, 57, 57, 10] 0o200 1000).fs.fileAt "/run/app.pid" =
        some ([57, 57, 57, 57, 57, 10], 0o200) ∧
      strconv.Atoi userEnv.intSize (strings.TrimSpace [57, 57, 57, 57, 57, 10]) = some 99999 ∧
      userEnv.processExists 99999 = true ∧
      os.ReadFile userEnv.cred (worldOwned 0o755 1000 [57, 57, 57, 57, 57, 10] 0o200 1000).fs
        "/run/app.pid" = .error (.pathError "open" "/run/app.pid" .EACCES) ∧
      (New userEnv (worldOwned 0o755 1000 [57, 57, 57, 57, 57, 10] 0o200 1000)
        "/run/app.pid").1 = .ok { path := "/run/app.pid" } ∧
      (New userEnv (worldOwned 0o755 1000 [57, 57, 57, 57, 57, 10] 0o200 1000)
        "/run/app.pid").2.fs.fileAt "/run/app.pid" = some ([49, 50, 51, 52], 0o200) := by
  refine ⟨by decide, by decide, by decide, by decide, by decide, by decide⟩

/-- C1, amended. When the calling process can read the file at `path` and what it reads is,
after trimming, the decimal identifier of a process that `processExists` reports alive,
`New path` returns the conflict error and no marker, and the filesystem afterwards is the
one before: same tree, same content of the file, no directory made, nothing written. -/
theorem new_live_owner_rejected (env : Env) (w : World) (path : String) (content : List Nat)
    (pid : Int)
    (hread : os.ReadFile env.cred w.fs path = .ok content)
    (hpid : strconv.Atoi env.intSize (strings.TrimSpace content) = some pid)
    (halive : env.processExists pid = true) :
    (New env w path).1 = .error (conflictError path) ∧
      (New env w path).2.fs = w.fs ∧
      os.ReadFile env.cred (New env w path).2.fs path = .ok content := by
  rw [new_of_live env w path content pid hread hpid halive]
  exact ⟨rfl, rfl, hread⟩

theorem new_live_owner_rejected_witness :
    os.ReadFile userEnv.cred (worldOwned 0o755 0 [57, 57, 57, 57, 57, 10] 0o644 0).fs
        "/run/app.pid" = .ok [57, 57, 57, 57, 57, 10] ∧
      strconv.Atoi userEnv.intSize (strings.TrimSpace [57, 57, 57, 57, 57, 10]) = some 99999 ∧
      userEnv.processExists 99999 = true ∧
      (New userEnv (worldOwned 0o755 0 [57, 57, 57, 57, 57, 10] 0o644 0) "/run/app.pid").1 =
        .error (conflictError "/run/app.pid") ∧
      (New userEnv (worldOwned 0o755 0 [57, 57, 57, 57, 57, 10] 0o644 0) "/run/app.pid").2.fs =
        (worldOwned 0o755 0 [57, 57, 57, 57, 57, 10] 0o644 0).fs ∧
      os.ReadFile userEnv.cred
        (New userEnv (worldOwned 0o755 0 [57, 57, 57, 57, 57, 10] 0o644 0) "/run/app.pid").2.fs
        "/run/app.pid" = .ok [57, 57, 57, 57, 57, 10] :=
  ⟨by decide, by decide, by decide,
    new_live_owner_rejected userEnv (worldOwned 0o755 0 [57, 57, 57, 57, 57, 10] 0o644 0)
      "/run/app.pid" [57, 57, 57, 57, 57, 10] 99999 (by decide) (by decide) (by decide)⟩

/-- C2. When no file exists at `path` and both the creation of the parent directory and the
write succeed, `New path` succeeds with a marker bound to `path`, and reading `path`
afterwards gives exactly the text `%d` makes of the identifier of the calling process, which
has no newline in it: user 0 reads it, every read that returns something returns it, and
the calling process itself reads it unless the mode of the file refuses it the read. -/
theorem new_creates_marker (env : Env) (w : World) (path : String) (fs1 fs2 : FS)
    (habsent : w.fs.fileAt path = none)
    (hmk : MkdirAll env.cred env.umask w.fs (filepath.Dir path) 0o755 = (fs1, none))
    (hwr : os.WriteFile env.cred env.umask fs1 path (fmt.formatDecimal env.pid) 0o600 =
      .ok fs2) :
    (New env w path).1 = .ok { path := path } ∧
      (New env w path).2.fs = fs2 ∧
      os.ReadFile Cred.root (New env w path).2.fs path = .ok (fmt.formatDecimal env.pid) ∧
      (∀ cred d, os.ReadFile cred (New env w path).2.fs path = .ok d →
        d = fmt.formatDecimal env.pid) ∧
      (os.ReadFile env.cred (New env w path).2.fs path = .ok (fmt.formatDecimal env.pid) ∨
        os.ReadFile env.cred (New env w path).2.fs path =
          .error (.pathError "open" path .EACCES)) ∧
      10 ∉ fmt.formatDecimal env.pid := by
  have hcheck : checkPIDFileAlreadyExists env w path = (none, w) := by
    cases hread : os.ReadFile env.cred w.fs path with
    | error e => exact check_unreadable env w path e hread
    | ok c =>
      obtain ⟨m, hm⟩ := readFile_ok_fileAt _ _ _ _ hread
      simp [habsent] at hm
  have hnew := new_of_no_conflict env w w path fs1 fs2 hcheck hmk hwr
  obtain ⟨hroot, hall, hself⟩ := read_after_write _ _ _ _ _ _ _ hwr
  rw [hnew]
  refine ⟨rfl, rfl, hroot, hall, hself, ?_⟩
  intro h10
  have := formatDecimal_numeral env.pid 10 h10
  unfold numeralByte at this
  omega

theorem new_creates_marker_witness :
    userRunWorld.fs.fileAt "/run/sub/app.pid" = none ∧
      (New userEnv userRunWorld "/run/sub/app.pid").1 = .ok { path := "/run/sub/app.pid" } ∧
      os.ReadFile userEnv.cred (New userEnv userRunWorld "/run/sub/app.pid").2.fs
        "/run/sub/app.pid" = .ok [49, 50, 51, 52] ∧
      os.ReadFile Cred.root (New userEnv userRunWorld "/run/sub/app.pid").2.fs
        "/run/sub/app.pid" = .ok [49, 50, 51, 52] :=
  have h := new_creates_marker userEnv userRunWorld "/run/sub/app.pid"
    { nodes := [(["run", "sub"], .dir { mode := 0o755, uid := 1000, gid := 1000 }),
                (["run"], .dir { mode := 0o755, uid := 1000, gid := 1000 })], cwd := [] }
    { nodes := [(["run", "sub", "app.pid"],
                  .file [49, 50, 51, 52] { mode := 0o600, uid := 1000, gid := 1000 }),
                (["run", "sub"], .dir { mode := 0o755, uid := 1000, gid := 1000 }),
                (["run"], .dir { mode := 0o755, uid := 1000, gid := 1000 })], cwd := [] }
    (by decide) (by decide) (by decide)
  ⟨by decide, h.1, by decide, h.2.2.1⟩

/-- C3. When the file at `path` holds the decimal identifier of a process that
`processExists` reports not alive, and the creation of the parent directory and the write
succeed, `New path` succeeds and the file then holds exactly the text `%d` makes of the
identifier of the calling process: nothing of the old content, no newline. User 0 reads
it, every read that returns something returns it, and the calling process itself reads it
unless the mode of the file refuses it the read. -/
theorem new_replaces_stale (env : Env) (w : World) (path : String) (content : List Nat)
    (mode : Nat) (pid : Int) (fs1 fs2 : FS)
    (hfile : w.fs.fileAt path = some (content, mode))
    (hpid : strconv.Atoi env.intSize (strings.TrimSpace content) = some pid)
    (hdead : env.processExists pid = false)
    (hmk : MkdirAll env.cred env.umask w.fs (filepath.Dir path) 0o755 = (fs1, none))
    (hwr : os.WriteFile env.cred env.umask fs1 path (fmt.formatDecimal env.pid) 0o600 =
      .ok fs2) :
    (New env w path).1 = .ok { path := path } ∧
      (New env w path).2.fs = fs2 ∧
      os.ReadFile Cred.root (New env w path).2.fs path = .ok (fmt.formatDecimal env.pid) ∧
      (∀ cred d, os.ReadFile cred (New env w path).2.fs path = .ok d →
        d = fmt.formatDecimal env.pid) ∧
      (os.ReadFile env.cred (New env w path).2.fs path = .ok (fmt.formatDecimal env.pid) ∨
        os.ReadFile env.cred (New env w path).2.fs path =
          .error (.pathError "open" path .EACCES)) ∧
      10 ∉ fmt.formatDecimal env.pid := by
  obtain ⟨w1, hcheck, hfs⟩ := check_stale_stored env w path content mode pid hfile hpid hdead
  rw [← hfs] at hmk
  have hnew := new_of_no_conflict env w w1 path fs1 fs2 hcheck hmk hwr
  obtain ⟨hroot, hall, hself⟩ := read_after_write _ _ _ _ _ _ _ hwr
  rw [hnew]
  refine ⟨rfl, rfl, hroot, hall, hself, ?_⟩
  intro h10
  have := formatDecimal_numeral env.pid 10 h10
  unfold numeralByte at this
  omega

theorem new_replaces_stale_witness :
    (New userEnv (worldOwned 0o755 0 [55, 55, 55, 55, 55, 55, 55, 10] 0o644 1000)
        "/run/app.pid").1 = .ok { path := "/run/app.pid" } ∧
      os.ReadFile userEnv.cred
        (New userEnv (worldOwned 0o755 0 [55, 55, 55, 55, 55, 55, 55, 10] 0o644 1000)
          "/run/app.pid").2.fs "/run/app.pid" = .ok [49, 50, 51, 52] :=
  have h := new_replaces_stale userEnv
    (worldOwned 0o755 0 [55, 55, 55, 55, 55, 55, 55, 10] 0o644 1000)
    "/run/app.pid" [55, 55, 55, 55, 55, 55, 55, 10] 0o644 7777777
    (worldOwned 0o755 0 [55, 55, 55, 55, 55, 55, 55, 10] 0o644 1000).fs
    { nodes := [(["run", "app.pid"],
                  .file [49, 50, 51, 52] { mode := 0o644, uid := 1000, gid := 1000 }),
                (["run"], .dir { mode := 0o755, uid := 0, gid := 0 })],
      cwd := [] }
    (by decide) (by decide) (by decide) (by decide) (by decide)
  ⟨h.1, by decide⟩

/-- C4. When the content of the file at `path`, trimmed, is not a base-10 integer that fits
`int`, `New path` does not ask `processExists` anything (the record of its queries is as
before, and the outcome is the same whatever `processExists` would answer), the check
reports no conflict, and whenever the creation of the parent directory and the write
succeed `New` succeeds and the file holds the text of the identifier of the caller. -/
theorem new_ignores_malformed (env : Env) (w : World) (path : String) (content : List Nat)
    (mode : Nat)
    (hfile : w.fs.fileAt path = some (content, mode))
    (hbad : strconv.Atoi env.intSize (strings.TrimSpace content) = none) :
    (New env w path).2.probes = w.probes ∧
      (∀ alive : Int → Bool, New { env with processExists := alive } w path = New env w path) ∧
      (checkPIDFileAlreadyExists env w path).1 = none ∧
      (New env w path).1 ≠ .error (conflictError path) ∧
      ∀ fs1 fs2, MkdirAll env.cred env.umask w.fs (filepath.Dir path) 0o755 = (fs1, none) →
        os.WriteFile env.cred env.umask fs1 path (fmt.formatDecimal env.pid) 0o600 = .ok fs2 →
        (New env w path).1 = .ok { path := path } ∧
          (New env w path).2.fs = fs2 ∧
          os.ReadFile Cred.root (New env w path).2.fs path =
            .ok (fmt.formatDecimal env.pid) ∧
          (∀ cred d, os.ReadFile cred (New env w path).2.fs path = .ok d →
            d = fmt.formatDecimal env.pid) ∧
          (os.ReadFile env.cred (New env w path).2.fs path =
              .ok (fmt.formatDecimal env.pid) ∨
            os.ReadFile env.cred (New env w path).2.fs path =
              .error (.pathError "open" path .EACCES)) := by
  have hcheck := check_malformed_stored env w path content mode hfile hbad
  refine ⟨?_, ?_, by rw [hcheck], ?_, ?_⟩
  · simp only [New, hcheck]
    cases MkdirAll env.cred env.umask w.fs (filepath.Dir path) 0o755 with
    | mk fs1 oe =>
      cases oe with
      | some e => rfl
      | none =>
        simp only
        cases os.WriteFile env.cred env.umask fs1 path (fmt.formatDecimal env.pid) 0o600 <;>
          rfl
  · intro alive
    have hcheck' : checkPIDFileAlreadyExists { env with processExists := alive } w path =
        (none, w) :=
      check_malformed_stored { env with processExists := alive } w path content mode hfile hbad
    simp only [New, hcheck, hcheck']
  · intro hconf
    simp only [New, hcheck] at hconf
    cases hm : MkdirAll env.cred env.umask w.fs (filepath.Dir path) 0o755 with
    | mk fs1 oe =>
      cases oe with
      | some e =>
        obtain ⟨errno, he⟩ := mkdirAll_error_shape _ _ _ _ _ _ _ hm
        simp [hm, he, conflictError] at hconf
      | none =>
        simp only [hm] at hconf
        cases hw : os.WriteFile env.cred env.umask fs1 path (fmt.formatDecimal env.pid)
            0o600 with
        | error e =>
          obtain ⟨errno, he⟩ := writeFile_error_shape _ _ _ _ _ _ _ hw
          simp [hw, he, conflictError] at hconf
        | ok fs2 => simp [hw] at hconf
  · intro fs1 fs2 hmk hwr
    have hnew := new_of_no_conflict env w w path fs1 fs2 hcheck hmk hwr
    obtain ⟨hroot, hall, hself⟩ := read_after_write _ _ _ _ _ _ _ hwr
    rw [hnew]
    exact ⟨rfl, rfl, hroot, hall, hself⟩

theorem new_ignores_malformed_witness :
    strconv.Atoi userEnv.intSize (strings.TrimSpace [97, 98, 99]) = none ∧
      (New userEnv (worldOwned 0o755 0 [97, 98, 99] 0o644 1000) "/run/app.pid").2.probes = [] ∧
      (New userEnv (worldOwned 0o755 0 [97, 98, 99] 0o644 1000) "/run/app.pid").1 =
        .ok { path := "/run/app.pid" } ∧
      os.ReadFile userEnv.cred
        (New userEnv (worldOwned 0o755 0 [97, 98, 99] 0o644 1000) "/run/app.pid").2.fs
        "/run/app.pid" = .ok [49, 50, 51, 52] :=
  have h := new_ignores_malformed userEnv (worldOwned 0o755 0 [97, 98, 99] 0o644 1000)
    "/run/app.pid" [97, 98, 99] 0o644 (by decide) (by decide)
  have h2 := h.2.2.2.2 (worldOwned 0o755 0 [97, 98, 99] 0o644 1000).fs
    { nodes := [(["run", "app.pid"],
                  .file [49, 50, 51, 52] { mode := 0o644, uid := 1000, gid := 1000 }),
                (["run"], .dir { mode := 0o755, uid := 0, gid := 0 })],
      cwd := [] }
    (by decide) (by decide)
  ⟨by decide, h.1, h2.1, by decide⟩

/-- C5, as stated, fails: `/run` belongs to user 0 with mode 0755 and holds `/run/app.pid`,
a stale marker owned by the unprivileged caller. `New` succeeds (the directory is there, the
file is the caller's to write), but `Remove` on the marker is refused, since the caller may
not write to `/run`, and the file stays. -/
theorem remove_refused_after_new :
    (New userEnv (worldOwned 0o755 0 [55, 55] 0o644 1000) "/run/app.pid").1 =
        .ok { path := "/run/app.pid" } ∧
      (PIDFile.Remove userEnv { path := "/run/app.pid" }
        (New userEnv (worldOwned 0o755 0 [55, 55] 0o644 1000) "/run/app.pid").2).1 =
        some (.pathError "remove" "/run/app.pid" .EACCES) ∧
      (PIDFile.Remove userEnv { path := "/run/app.pid" }
        (New userEnv (worldOwned 0o755 0 [55, 55] 0o644 1000) "/run/app.pid").2).2.fs.fileAt
        "/run/app.pid" = some ([49, 50, 51, 52], 0o644) := by
  refine ⟨by decide, by decide, by decide⟩

/-- C5, amended. After a successful `New path`, when the calling process may take the entry
out of its directory (write permission on the directory and, in a sticky directory,
ownership of the file or the directory, or user 0), `Remove` on the marker `New` returned
succeeds and leaves no file at `path` (no read of it returns anything), and a second `Remove`
on the same marker returns an error, the very "no such file or directory" of the removal,
and is not a silent success. -/
theorem remove_after_new (env : Env) (w : World) (path : String) (file : PIDFile)
    (hnew : (New env w path).1 = .ok file)
    (hperm : (New env w path).2.fs.mayUnlink env.cred path = true) :
    (file.Remove env (New env w path).2).1 = none ∧
      (file.Remove env (New env w path).2).2.fs.fileAt path = none ∧
      (∀ cred d, os.ReadFile cred (file.Remove env (New env w path).2).2.fs path ≠ .ok d) ∧
      (file.Remove env (file.Remove env (New env w path).2).2).1 =
        some (.pathError "remove" path .ENOENT) := by
  obtain ⟨hf, ⟨mode, hfa⟩, k, hk⟩ := new_ok_fileAt env w path file hnew
  obtain ⟨fs', hrm, hnone, hnoread, hagain⟩ := remove_file _ _ _ _ _ k hk hfa hperm
  subst hf
  have h1 : PIDFile.Remove env { path := path } (New env w path).2 =
      (none, { (New env w path).2 with fs := fs' }) := by
    simp [PIDFile.Remove, hrm]
  rw [h1]
  refine ⟨rfl, hnone, hnoread, ?_⟩
  simp [PIDFile.Remove, hagain]

theorem remove_after_new_witness :
    (New userEnv userRunWorld "/run/app.pid").1 = .ok { path := "/run/app.pid" } ∧
      (New userEnv userRunWorld "/run/app.pid").2.fs.mayUnlink userEnv.cred "/run/app.pid" =
        true ∧
      (PIDFile.Remove userEnv { path := "/run/app.pid" }
        (New userEnv userRunWorld "/run/app.pid").2).1 = none ∧
      (PIDFile.Remove userEnv { path := "/run/app.pid" }
        (PIDFile.Remove userEnv { path := "/run/app.pid" }
          (New userEnv userRunWorld "/run/app.pid").2).2).1 =
        some (.pathError "remove" "/run/app.pid" .ENOENT) :=
  have h := remove_after_new userEnv userRunWorld "/run/app.pid" { path := "/run/app.pid" }
    (by decide) (by decide)
  ⟨by decide, by decide, h.1, h.2.2.2⟩

/-- C6. Whatever the file at the path of a marker held before (the identifier of a live
process included, or nothing), a successful `Write` leaves it holding exactly the text of
the identifier of the caller followed by one newline (user 0 reads it, every read that
returns something returns it, and the caller itself reads it unless the mode of the file
refuses it the read); `Write` asks `processExists` nothing, and two runs that differ only in
what `processExists` answers have the same result and leave the same state. -/
theorem write_restamps (env : Env) (w : World) (p : PIDFile)
    (hok : (p.Write env w).1 = none) :
    os.ReadFile Cred.root (p.Write env w).2.fs p.path =
        .ok (fmt.formatDecimal env.pid ++ [10]) ∧
      (∀ cred d, os.ReadFile cred (p.Write env w).2.fs p.path = .ok d →
        d = fmt.formatDecimal env.pid ++ [10]) ∧
      (os.ReadFile env.cred (p.Write env w).2.fs p.path =
          .ok (fmt.formatDecimal env.pid ++ [10]) ∨
        os.ReadFile env.cred (p.Write env w).2.fs p.path =
          .error (.pathError "open" p.path .EACCES)) ∧
      10 ∉ fmt.formatDecimal env.pid ∧
      (p.Write env w).2.probes = w.probes ∧
      ∀ alive : Int → Bool, p.Write { env with processExists := alive } w = p.Write env w := by
  have h10 : 10 ∉ fmt.formatDecimal env.pid := by
    intro h10
    have := formatDecimal_numeral env.pid 10 h10
    unfold numeralByte at this
    omega
  have hread : os.ReadFile Cred.root (p.Write env w).2.fs p.path =
        .ok (fmt.formatDecimal env.pid ++ [10]) ∧
      (∀ cred d, os.ReadFile cred (p.Write env w).2.fs p.path = .ok d →
        d = fmt.formatDecimal env.pid ++ [10]) ∧
      (os.ReadFile env.cred (p.Write env w).2.fs p.path =
          .ok (fmt.formatDecimal env.pid ++ [10]) ∨
        os.ReadFile env.cred (p.Write env w).2.fs p.path =
          .error (.pathError "open" p.path .EACCES)) := by
    unfold PIDFile.Write at hok ⊢
    cases hw : os.WriteFile env.cred env.umask w.fs p.path (fmt.formatDecimal env.pid ++ [10])
        0o644 with
    | error e => simp [hw] at hok
    | ok fs1 => exact read_after_write _ _ _ _ _ _ _ hw
  refine ⟨hread.1, hread.2.1, hread.2.2, h10, ?_, fun _ => rfl⟩
  unfold PIDFile.Write
  cases os.WriteFile env.cred env.umask w.fs p.path (fmt.formatDecimal env.pid ++ [10])
    0o644 <;> rfl

theorem write_restamps_witness :
    userEnv.processExists 99999 = true ∧
      os.ReadFile userEnv.cred (worldOwned 0o755 0 [57, 57, 57, 57, 57] 0o600 1000).fs
        "/run/app.pid" = .ok [57, 57, 57, 57, 57] ∧
      (PIDFile.Write userEnv { path := "/run/app.pid" }
        (worldOwned 0o755 0 [57, 57, 57, 57, 57] 0o600 1000)).1 = none ∧
      os.ReadFile Cred.root (PIDFile.Write userEnv { path := "/run/app.pid" }
        (worldOwned 0o755 0 [57, 57, 57, 57, 57] 0o600 1000)).2.fs "/run/app.pid" =
        .ok [49, 50, 51, 52, 10] ∧
      os.ReadFile userEnv.cred (PIDFile.Write userEnv { path := "/run/app.pid" }
        (worldOwned 0o755 0 [57, 57, 57, 57, 57] 0o600 1000)).2.fs "/run/app.pid" =
        .ok [49, 50, 51, 52, 10] :=
  ⟨by decide, by decide, by decide,
    (write_restamps userEnv (worldOwned 0o755 0 [57, 57, 57, 57, 57] 0o600 1000)
      { path := "/run/app.pid" } (by decide)).1,
    by decide⟩

/-- C7, as stated, fails: with `/a` a regular file, `New "/a/b.pid"` returns the error of
`MkdirAll "/a"`, whose message is "mkdir /a: not a directory" and does not contain
"/a/b.pid". -/
theorem new_mkdir_error_lacks_path :
    (New sampleEnv worldFileA "/a/b.pid").1 = .error (.pathError "mkdir" "/a" .ENOTDIR) ∧
      (GoError.pathError "mkdir" "/a" .ENOTDIR).Error = "mkdir /a: not a directory" ∧
      ¬ ("/a/b.pid".data <:+: (GoError.pathError "mkdir" "/a" .ENOTDIR).Error.data) := by
  refine ⟨by decide, by decide, by decide⟩

/-- C7, amended. An error `New path` returns is either the conflict error of the check or
the error of the file write, and then its message contains `path`; or it is the error
`MkdirAll` returned for `filepath.Dir path`, handed on as it is (`New` adds nothing to
it). -/
theorem new_error_message (env : Env) (w : World) (path : String) (e : GoError)
    (h : (New env w path).1 = .error e) :
    (path.data <:+: e.Error.data ∧
        ((checkPIDFileAlreadyExists env w path).1 = some e ∨
          ∃ fs1, MkdirAll env.cred env.umask w.fs (filepath.Dir path) 0o755 = (fs1, none) ∧
            os.WriteFile env.cred env.umask fs1 path (fmt.formatDecimal env.pid) 0o600 =
              .error e)) ∨
      ∃ fs1, MkdirAll env.cred env.umask w.fs (filepath.Dir path) 0o755 = (fs1, some e) := by
  have hfs := check_fs env w path
  unfold New at h
  cases hc : checkPIDFileAlreadyExists env w path with
  | mk oe w1 =>
    rw [hc] at hfs
    simp only at hfs
    cases oe with
    | some e0 =>
      simp only [hc, Except.error.injEq] at h
      subst h
      left
      refine ⟨?_, Or.inl rfl⟩
      have hshape : e0 = conflictError path := by
        unfold checkPIDFileAlreadyExists at hc
        cases hr : os.ReadFile env.cred w.fs path with
        | error e1 => simp [hr] at hc
        | ok c =>
          simp only [hr] at hc
          cases ha : strconv.Atoi env.intSize (strings.TrimSpace c) with
          | none => simp [ha] at hc
          | some pid =>
            simp only [ha] at hc
            cases hp : env.processExists pid with
            | false => simp [hp] at hc
            | true =>
              simp only [hp, if_true, Prod.mk.injEq, Option.some.injEq] at hc
              exact hc.1.symm
      subst hshape
      exact ⟨"pid file found, ensure webhook is not running or delete ".data, [], by
        simp [conflictError, GoError.Error, String.data_append]⟩
    | none =>
      simp only [hc] at h
      rw [hfs] at h
      cases hm : MkdirAll env.cred env.umask w.fs (filepath.Dir path) 0o755 with
      | mk fs1 oe1 =>
        cases oe1 with
        | some e1 =>
          simp only [hm, Except.error.injEq] at h
          subst h
          right
          exact ⟨fs1, rfl⟩
        | none =>
          simp only [hm] at h
          cases hw : os.WriteFile env.cred env.umask fs1 path (fmt.formatDecimal env.pid)
              0o600 with
          | ok fs2 => simp [hw] at h
          | error e2 =>
            simp only [hw, Except.error.injEq] at h
            subst h
            left
            obtain ⟨errno, he⟩ := writeFile_error_shape _ _ _ _ _ _ _ hw
            refine ⟨?_, Or.inr ⟨fs1, rfl, hw⟩⟩
            subst he
            exact ⟨"open ".data, (": " ++ errno.Error).data, by
              simp [GoError.Error, String.data_append]⟩

theorem new_error_message_witness :
    (New sampleEnv (worldWith [49] 0o644) "/run/app.pid").1 =
        .error (conflictError "/run/app.pid") ∧
      ("/run/app.pid".data <:+: (conflictError "/run/app.pid").Error.data ∧
          ((checkPIDFileAlreadyExists sampleEnv (worldWith [49] 0o644) "/run/app.pid").1 =
              some (conflictError "/run/app.pid") ∨
            ∃ fs1, MkdirAll sampleEnv.cred sampleEnv.umask (worldWith [49] 0o644).fs
                (filepath.Dir "/run/app.pid") 0o755 = (fs1, none) ∧
              os.WriteFile sampleEnv.cred sampleEnv.umask fs1 "/run/app.pid"
                (fmt.formatDecimal sampleEnv.pid) 0o600 =
                .error (conflictError "/run/app.pid")) ∨
        ∃ fs1, MkdirAll sampleEnv.cred sampleEnv.umask (worldWith [49] 0o644).fs
          (filepath.Dir "/run/app.pid") 0o755 = (fs1, some (conflictError "/run/app.pid"))) :=
  ⟨by decide,
    new_error_message sampleEnv (worldWith [49] 0o644) "/run/app.pid"
      (conflictError "/run/app.pid") (by decide)⟩

/-- C8, as stated, fails: `New` creates `/run/app.pid` with mode 0600, and after the
following successful `Write` the file has the new content but still mode 0600, not 0644. -/
theorem write_after_new_mode_0600 :
    (New sampleEnv emptyWorld "/run/app.pid").1 = .ok { path := "/run/app.pid" } ∧
      (New sampleEnv emptyWorld "/run/app.pid").2.fs.fileAt "/run/app.pid" =
        some ([49, 50, 51, 52], 0o600) ∧
      (PIDFile.Write sampleEnv { path := "/run/app.pid" }
        (New sampleEnv emptyWorld "/run/app.pid").2).1 = none ∧
      (PIDFile.Write sampleEnv { path := "/run/app.pid" }
        (New sampleEnv emptyWorld "/run/app.pid").2).2.fs.fileAt "/run/app.pid" =
        some ([49, 50, 51, 52, 10], 0o600) ∧
      (0o600 : Nat) ≠ 0o644 := by
  refine ⟨by decide, by decide, by decide, by decide, by decide⟩

/-- C8, amended. After a successful `New path` and a following successful `Write` (by a
process `env'`, the same or another), the file at `path` has the mode it had after `New`:
the re-write changes the content and not the mode. That mode is the one of the file `New`
wrote over, if there was one, and 0600 less the umask bits if `New` had to create the file
(none was there once the directory was made). -/
theorem write_keeps_mode (env env' : Env) (w : World) (path : String) (file : PIDFile)
    (hnew : (New env w path).1 = .ok file)
    (hok : (file.Write env' (New env w path).2).1 = none) :
    ∃ mode, (New env w path).2.fs.fileAt path = some (fmt.formatDecimal env.pid, mode) ∧
      (file.Write env' (New env w path).2).2.fs.fileAt path =
        some (fmt.formatDecimal env'.pid ++ [10], mode) ∧
      (∀ d m, w.fs.fileAt path = some (d, m) → mode = m) ∧
      ((MkdirAll env.cred env.umask w.fs (filepath.Dir path) 0o755).1.fileAt path = none →
        mode = applyUmask env.umask 0o600) := by
  obtain ⟨hf, w1, fs1, fs2, hcheck, hmk, hwr, hnw⟩ := new_ok env w path file hnew
  have hfs : w1.fs = w.fs := by
    have := check_fs env w path
    rw [hcheck] at this
    exact this
  rw [hfs] at hmk
  obtain ⟨mode, hm, hold, hcreate⟩ := fileAt_after_write _ _ _ _ _ _ _ hwr
  subst hf
  rw [hnw] at hok ⊢
  refine ⟨mode, hm, ?_, ?_, ?_⟩
  · unfold PIDFile.Write at hok ⊢
    cases hw3 : os.WriteFile env'.cred env'.umask fs2 path (fmt.formatDecimal env'.pid ++ [10])
        0o644 with
    | error e => simp [hw3] at hok
    | ok fs3 =>
      obtain ⟨m3, hm3, hold3, _⟩ := fileAt_after_write _ _ _ _ _ _ _ hw3
      have : m3 = mode := hold3 _ mode hm
      subst this
      exact hm3
  · intro d m hdm
    exact hold d m (mkdirAll_keeps_fileAt _ _ _ _ _ _ _ hmk path d m hdm)
  · intro hnone
    rw [hmk] at hnone
    exact hcreate hnone

theorem write_keeps_mode_witness :
    ∃ mode, (New sampleEnv (worldWith [55] 0o640) "/run/app.pid").2.fs.fileAt "/run/app.pid" =
        some (fmt.formatDecimal sampleEnv.pid, mode) ∧
      (PIDFile.Write sampleEnv { path := "/run/app.pid" }
        (New sampleEnv (worldWith [55] 0o640) "/run/app.pid").2).2.fs.fileAt "/run/app.pid" =
        some (fmt.formatDecimal sampleEnv.pid ++ [10], mode) ∧
      (∀ d m, (worldWith [55] 0o640).fs.fileAt "/run/app.pid" = some (d, m) → mode = m) ∧
      ((MkdirAll sampleEnv.cred sampleEnv.umask (worldWith [55] 0o640).fs
          (filepath.Dir "/run/app.pid") 0o755).1.fileAt "/run/app.pid" = none →
        mode = applyUmask sampleEnv.umask 0o600) :=
  write_keeps_mode sampleEnv sampleEnv (worldWith [55] 0o640) "/run/app.pid"
    { path := "/run/app.pid" } (by decide) (by decide)

/-- C9. `New path` returns the conflict error exactly when the file at `path` can be read,
its trimmed content is a base-10 integer, and `processExists` reports that identifier alive.
In every other case (nothing there, unreadable, malformed, process gone) the result of `New`
is decided by the creation of the parent directory and the write alone: the error of the
first of the two that fails, success if neither does. -/
theorem new_conflict_iff (env : Env) (w : World) (path : String) :
    ((New env w path).1 = .error (conflictError path) ↔
        ∃ content pid, os.ReadFile env.cred w.fs path = .ok content ∧
          strconv.Atoi env.intSize (strings.TrimSpace content) = some pid ∧
          env.processExists pid = true) ∧
      ((¬ ∃ content pid, os.ReadFile env.cred w.fs path = .ok content ∧
          strconv.Atoi env.intSize (strings.TrimSpace content) = some pid ∧
          env.processExists pid = true) →
        (checkPIDFileAlreadyExists env w path).1 = none ∧
        (New env w path).1 =
          match MkdirAll env.cred env.umask w.fs (filepath.Dir path) 0o755 with
          | (_, some e) => .error e
          | (fs1, none) =>
            match os.WriteFile env.cred env.umask fs1 path (fmt.formatDecimal env.pid) 0o600 with
            | .error e => .error e
            | .ok _ => .ok { path := path }) := by
  have hfs := check_fs env w path
  -- the outcome of `New` once the check has passed
  have hpass : ∀ w1, checkPIDFileAlreadyExists env w path = (none, w1) →
      (New env w path).1 =
        match MkdirAll env.cred env.umask w.fs (filepath.Dir path) 0o755 with
        | (_, some e) => .error e
        | (fs1, none) =>
          match os.WriteFile env.cred env.umask fs1 path (fmt.formatDecimal env.pid) 0o600 with
          | .error e => .error e
          | .ok _ => .ok { path := path } := by
    intro w1 hc
    rw [hc] at hfs
    simp only at hfs
    simp only [New, hc, hfs]
    cases hm : MkdirAll env.cred env.umask w.fs (filepath.Dir path) 0o755 with
    | mk fs1 oe =>
      cases oe with
      | some e => rfl
      | none =>
        simp only
        cases os.WriteFile env.cred env.umask fs1 path (fmt.formatDecimal env.pid) 0o600 <;> rfl
  have hnot : ∀ w1, checkPIDFileAlreadyExists env w path = (none, w1) →
      (New env w path).1 ≠ .error (conflictError path) := by
    intro w1 hc hconf
    rw [hpass w1 hc] at hconf
    cases hm : MkdirAll env.cred env.umask w.fs (filepath.Dir path) 0o755 with
    | mk fs1 oe =>
      cases oe with
      | some e =>
        obtain ⟨errno, he⟩ := mkdirAll_error_shape _ _ _ _ _ _ _ hm
        simp [hm, he, conflictError] at hconf
      | none =>
        simp only [hm] at hconf
        cases hw : os.WriteFile env.cred env.umask fs1 path (fmt.formatDecimal env.pid) 0o600 with
        | error e =>
          obtain ⟨errno, he⟩ := writeFile_error_shape _ _ _ _ _ _ _ hw
          simp [hw, he, conflictError] at hconf
        | ok fs2 => simp [hw] at hconf
  cases hr : os.ReadFile env.cred w.fs path with
  | error e0 =>
    have hc := check_unreadable env w path e0 hr
    refine ⟨⟨fun h => absurd h (hnot w hc), ?_⟩, fun _ => ⟨by rw [hc], hpass w hc⟩⟩
    rintro ⟨c, pid, h1, _⟩
    exact Except.noConfusion h1
  | ok c =>
    cases ha : strconv.Atoi env.intSize (strings.TrimSpace c) with
    | none =>
      have hc := check_malformed env w path c hr ha
      refine ⟨⟨fun h => absurd h (hnot w hc), ?_⟩, fun _ => ⟨by rw [hc], hpass w hc⟩⟩
      rintro ⟨c', pid, h1, h2, _⟩
      simp only [Except.ok.injEq] at h1
      subst h1
      rw [ha] at h2
      exact Option.noConfusion h2
    | some pid =>
      cases hp : env.processExists pid with
      | false =>
        have hc := check_stale env w path c pid hr ha hp
        refine ⟨⟨fun h => absurd h (hnot _ hc), ?_⟩, fun _ => ⟨by rw [hc], hpass _ hc⟩⟩
        rintro ⟨c', pid', h1, h2, h3⟩
        simp only [Except.ok.injEq] at h1
        subst h1
        rw [ha] at h2
        simp only [Option.some.injEq] at h2
        subst h2
        rw [hp] at h3
        exact Bool.noConfusion h3
      | true =>
        have hc := check_live env w path c pid hr ha hp
        have hnew : (New env w path).1 = .error (conflictError path) := by
          simp [New, hc]
        exact ⟨⟨fun _ => ⟨c, pid, rfl, ha, hp⟩, fun _ => hnew⟩,
          fun hno => absurd ⟨c, pid, rfl, ha, hp⟩ hno⟩

/-- C9 at three inputs: a live owner the caller reads is a conflict; a directory is no
conflict; a live owner the caller cannot read is no conflict either, and `New` fails there
only because the write is refused. -/
theorem new_conflict_iff_witness :
    (New sampleEnv (worldWith [49, 10] 0o600) "/run/app.pid").1 =
        .error (conflictError "/run/app.pid") ∧
      (checkPIDFileAlreadyExists sampleEnv emptyWorld "/").1 = none ∧
      (New sampleEnv emptyWorld "/").1 = .error (.pathError "open" "/" .EISDIR) ∧
      (checkPIDFileAlreadyExists userEnv (worldWith [49, 10] 0o600) "/run/app.pid").1 = none ∧
      (New userEnv (worldWith [49, 10] 0o600) "/run/app.pid").1 =
        .error (.pathError "open" "/run/app.pid" .EACCES) :=
  ⟨(new_conflict_iff sampleEnv (worldWith [49, 10] 0o600) "/run/app.pid").1.mpr
      ⟨[49, 10], 1, by decide, by decide, by decide⟩,
    ((new_conflict_iff sampleEnv emptyWorld "/").2 (by
      have hr : os.ReadFile sampleEnv.cred emptyWorld.fs "/" =
          .error (.pathError "read" "/" .EISDIR) := by
        decide
      rintro ⟨c, pid, h, _⟩
      rw [hr] at h
      exact Except.noConfusion h)).1,
    by decide,
    ((new_conflict_iff userEnv (worldWith [49, 10] 0o600) "/run/app.pid").2 (by
      have hr : os.ReadFile userEnv.cred (worldWith [49, 10] 0o600).fs "/run/app.pid" =
          .error (.pathError "open" "/run/app.pid" .EACCES) := by
        decide
      rintro ⟨c, pid, h, _⟩
      rw [hr] at h
      exact Except.noConfusion h)).1,
    by decide⟩

/-- C10, as stated, fails: user 1000's process 1234 creates `/run/app.pid` with `New`, which
gives the file mode 0600. A later `New` on the same path by a process of user 1001, for
which 1234 is alive, cannot read the file, so it skips the check and returns the error of
the refused write, "open /run/app.pid: permission denied", not the conflict error. -/
theorem later_new_other_user_no_conflict :
    (New userEnv userRunWorld "/run/app.pid").1 = .ok { path := "/run/app.pid" } ∧
      (New userEnv userRunWorld "/run/app.pid").2.fs.fileAt "/run/app.pid" =
        some ([49, 50, 51, 52], 0o600) ∧
      otherUserEnv.processExists userEnv.pid = true ∧
      (New otherUserEnv (New userEnv userRunWorld "/run/app.pid").2 "/run/app.pid").1 =
        .error (.pathError "open" "/run/app.pid" .EACCES) ∧
      GoError.pathError "open" "/run/app.pid" .EACCES ≠ conflictError "/run/app.pid" := by
  refine ⟨by decide, by decide, by decide, by decide, by decide⟩

/-- C10, amended. For every identifier `p` that fits `int`, the content `New` writes (the
text of `p`) and the content `Write` writes (that text and a newline) both trim and parse
back to `p`. So after a successful `New path` by process `p`, followed by any number of
`Write` calls of `p`, a later `New path` by any process that can read the file and for which
`processExists p` holds (`p` itself included) returns the conflict error and leaves the
filesystem as it is, the file still holding the identifier `p`. -/
theorem owner_round_trip (intSize : Nat) (p : Int) (hrange : inIntRange intSize p) :
    strconv.Atoi intSize (strings.TrimSpace (fmt.formatDecimal p)) = some p ∧
      strconv.Atoi intSize (strings.TrimSpace (fmt.formatDecimal p ++ [10])) = some p ∧
      ∀ (env env' : Env) (w : World) (path : String) (file : PIDFile) (n : Nat)
        (content : List Nat),
        env.pid = p → env'.intSize = intSize → env'.processExists p = true →
        (New env w path).1 = .ok file →
        os.ReadFile env'.cred (writeTimes env file n (New env w path).2).fs path =
          .ok content →
        (New env' (writeTimes env file n (New env w path).2) path).1 =
            .error (conflictError path) ∧
          (New env' (writeTimes env file n (New env w path).2) path).2.fs =
            (writeTimes env file n (New env w path).2).fs ∧
          os.ReadFile env'.cred
            (New env' (writeTimes env file n (New env w path).2) path).2.fs path =
              .ok content ∧
          strconv.Atoi intSize (strings.TrimSpace content) = some p := by
  have h1 := atoi_trim_formatDecimal intSize p hrange
  have h2 := atoi_trim_formatDecimal_newline intSize p hrange
  refine ⟨h1, h2, ?_⟩
  intro env env' w path file n content hp hsize halive hnew hread
  obtain ⟨hf, ⟨mode, hfa⟩, _⟩ := new_ok_fileAt env w path file hnew
  subst hf
  obtain ⟨c, hc, hshape⟩ :=
    writeTimes_fileAt env { path := path } n (New env w path).2 _ mode hfa (Or.inl rfl)
  simp only at hc
  obtain ⟨m', hm'⟩ := readFile_ok_fileAt _ _ _ _ hread
  rw [hc] at hm'
  simp only [Option.some.injEq, Prod.mk.injEq] at hm'
  have hcc : content = c := hm'.1.symm
  subst hcc
  have hparse : strconv.Atoi env'.intSize (strings.TrimSpace content) = some p := by
    rw [hsize]
    rcases hshape with hs | hs
    · rw [hs, hp]; exact h1
    · rw [hs, hp]; exact h2
  rw [new_of_live env' (writeTimes env { path := path } n (New env w path).2) path content
    p hread hparse halive]
  refine ⟨rfl, rfl, hread, ?_⟩
  rw [← hsize]
  exact hparse

theorem owner_round_trip_witness :
    inIntRange 64 1234 ∧
      strconv.Atoi 64 (strings.TrimSpace (fmt.formatDecimal 1234 ++ [10])) = some 1234 ∧
      (New userEnv userRunWorld "/run/app.pid").1 = .ok { path := "/run/app.pid" } ∧
      os.ReadFile userLaterEnv.cred (writeTimes userEnv { path := "/run/app.pid" } 2
        (New userEnv userRunWorld "/run/app.pid").2).fs "/run/app.pid" =
        .ok [49, 50, 51, 52, 10] ∧
      (New userLaterEnv (writeTimes userEnv { path := "/run/app.pid" } 2
        (New userEnv userRunWorld "/run/app.pid").2) "/run/app.pid").1 =
        .error (conflictError "/run/app.pid") :=
  have h := owner_round_trip 64 1234 (by decide)
  ⟨by decide, h.2.1, by decide, by decide,
    (h.2.2 userEnv userLaterEnv userRunWorld "/run/app.pid" { path := "/run/app.pid" } 2
      [49, 50, 51, 52, 10] rfl rfl (by decide) (by decide) (by decide)).1⟩


end pidfile
